import Mathlib

/-!
# home-uk-go: price-paid records, filtered and grouped

A shallow embedding of `main.go`: the classifiers (`toPropertyType`, `toPropertyAge`,
`toDurationOfTransfer`), `toEntry`, the filter and sort of `parseAndFilter`, and the
grouping loop of `processAndSave`, followed by theorems about them.

Conventions of the embedding:
* a Go `string` is a Lean `String`, a Go `int` is an `Int`, a slice is a `List`;
* a Go `map[K]V` is an association list `GoMap K V` with at most one binding per key;
  nested maps, which Go shares by reference, are written back explicitly after an update;
* `log.Fatal` and a run-time panic end the run: fallible code returns `Except Fatal _`.
-/

namespace HomeUK

/-! ## Enumerations (main.go 150-216) -/

/-- Go `type PropertyType byte`. -/
structure PropertyType where
  val : Fin 256
  deriving DecidableEq, Repr

/-- Go `type PropertyAge byte`. -/
structure PropertyAge where
  val : Fin 256
  deriving DecidableEq, Repr

/-- Go `type DurationOfTransfer byte`. -/
structure DurationOfTransfer where
  val : Fin 256
  deriving DecidableEq, Repr

def Detached : PropertyType := ⟨0⟩
def SemiDetached : PropertyType := ⟨1⟩
def Terraced : PropertyType := ⟨2⟩
def Flat : PropertyType := ⟨3⟩
def Other : PropertyType := ⟨4⟩

def New : PropertyAge := ⟨0⟩
def Old : PropertyAge := ⟨1⟩

def Freehold : DurationOfTransfer := ⟨0⟩
def Leasehold : DurationOfTransfer := ⟨1⟩

/-! ## Classifiers (main.go 258-289) -/

/-- Go `toPropertyType`: a `switch` on the code with a `default` arm. -/
def toPropertyType (s : String) : PropertyType :=
  if s = "D" then Detached
  else if s = "S" then SemiDetached
  else if s = "T" then Terraced
  else if s = "F" then Flat
  else Other

/-- Go `toPropertyAge`. -/
def toPropertyAge (s : String) : PropertyAge :=
  if s = "Y" then New else Old

/-- Go `toDurationOfTransfer`. -/
def toDurationOfTransfer (s : String) : DurationOfTransfer :=
  if s = "F" then Freehold else Leasehold

/-! ## Standard-library functions used by `toEntry` -/

/-- Splitting a character sequence at every occurrence of `sep`; the result always has
at least one piece (`strings.Split` with a one-byte separator). -/
def splitChars (sep : Char) : List Char → List (List Char)
  | [] => [[]]
  | c :: cs =>
    if c = sep then [] :: splitChars sep cs
    else
      match splitChars sep cs with
      | [] => [[c]]
      | p :: ps => (c :: p) :: ps

/-- Go `strings.Split(s, " ")`. -/
def stringsSplitSpace (s : String) : List String :=
  (splitChars ' ' s.data).map String.mk

/-- Value of a decimal digit, `none` for any other character. -/
def digitVal (c : Char) : Option Nat :=
  if 48 ≤ c.toNat ∧ c.toNat ≤ 57 then some (c.toNat - 48) else none

/-- Decimal value of a sequence of digits, accumulated left to right; `none` when a
character is not a digit. -/
def digitsVal : List Char → Nat → Option Nat
  | [], acc => some acc
  | c :: cs, acc =>
    match digitVal c with
    | none => none
    | some d => digitsVal cs (10 * acc + d)

/-- Go `strconv.Atoi` on a 64-bit platform: an optional sign, then one or more decimal
digits, the value within the range of `int`; `none` stands for a non-nil error. -/
def strconvAtoi (s : String) : Option Int :=
  let body : Bool × List Char :=
    match s.data with
    | '-' :: r => (true, r)
    | '+' :: r => (false, r)
    | r => (false, r)
  if body.2 = [] then none
  else
    match digitsVal body.2 0 with
    | none => none
    | some n =>
      let v : Int := if body.1 then - (n : Int) else (n : Int)
      if - (9223372036854775808 : Int) ≤ v ∧ v ≤ 9223372036854775807 then some v else none

/-- The part of Go's `time.Time` that the program reads: a calendar date and time in UTC. -/
structure Time where
  year : Int
  month : Nat
  day : Nat
  hour : Nat
  minute : Nat
  deriving DecidableEq, Repr

/-- Go `Time.Year`. -/
def Time.Year (t : Time) : Int := t.year

/-- Go `time.getnum`: one or two leading digits; with `fixed` exactly two are required. -/
def getnum (value : List Char) (fixed : Bool) : Option (Nat × List Char) :=
  match value with
  | [] => none
  | c0 :: rest =>
    match digitVal c0 with
    | none => none
    | some d0 =>
      match rest with
      | [] => if fixed then none else some (d0, rest)
      | c1 :: rest1 =>
        match digitVal c1 with
        | none => if fixed then none else some (d0, rest)
        | some d1 => some (d0 * 10 + d1, rest1)

/-- Expecting the literal character `c` at the head of the value. -/
def skipChar (c : Char) : List Char → Option (List Char)
  | [] => none
  | d :: rest => if d = c then some rest else none

/-- Go `time.skip` for a layout prefix that is one space: the value is empty or starts
with a space, and all its leading spaces are consumed. -/
def skipSpace : List Char → Option (List Char)
  | [] => some []
  | d :: rest => if d = ' ' then some ((d :: rest).dropWhile (· = ' ')) else none

def isLeap (year : Nat) : Bool :=
  year % 4 == 0 && (year % 100 != 0 || year % 400 == 0)

/-- Go `time.daysIn`. -/
def daysIn (month year : Nat) : Nat :=
  if month = 2 then (if isLeap year then 29 else 28)
  else if month = 4 ∨ month = 6 ∨ month = 9 ∨ month = 11 then 30
  else 31

/-- Go `time.Parse("2006-01-02 15:04", value)`: a four-digit year, a two-digit month, a
two-digit day, spaces, a one- or two-digit hour, a two-digit minute and nothing more, each
within its calendar range; `none` stands for a non-nil error. -/
def timeParse (value : String) : Option Time :=
  match value.data with
  | y0 :: y1 :: y2 :: y3 :: v1 =>
    match digitsVal [y0, y1, y2, y3] 0 with
    | none => none
    | some year =>
    match skipChar '-' v1 with
    | none => none
    | some v2 =>
    match getnum v2 true with
    | none => none
    | some (month, v3) =>
    if month = 0 ∨ 12 < month then none else
    match skipChar '-' v3 with
    | none => none
    | some v4 =>
    match getnum v4 true with
    | none => none
    | some (day, v5) =>
    match skipSpace v5 with
    | none => none
    | some v6 =>
    match getnum v6 false with
    | none => none
    | some (hour, v7) =>
    if 24 ≤ hour then none else
    match skipChar ':' v7 with
    | none => none
    | some v8 =>
    match getnum v8 true with
    | none => none
    | some (minute, v9) =>
    if 60 ≤ minute then none else
    if v9 ≠ [] then none else
    if day < 1 ∨ daysIn month year < day then none else
    some ⟨(year : Int), month, day, hour, minute⟩
  | _ => none

/-! ## Entries (main.go 220-256) -/

/-- Go `type Entry struct`. -/
structure Entry where
  price : Int
  date : Time
  postcode1 : String
  postcode2 : String
  propertyType : PropertyType
  propertyAge : PropertyAge
  duration : DurationOfTransfer
  deriving DecidableEq, Repr

/-- How a run ends before its time: a run-time panic or a `log.Fatal`. -/
inductive Fatal where
  | indexOutOfRange
  | atoi
  | timeParse
  deriving DecidableEq, Repr

/-- Go `toEntry`, statement by statement: every index expression can panic, a failed
`strconv.Atoi` or `time.Parse` is fatal. -/
def toEntry (columns : List String) : Except Fatal Entry :=
  match columns[1]? with
  | none => .error .indexOutOfRange
  | some c1 =>
  match strconvAtoi c1 with
  | none => .error .atoi
  | some i =>
  match columns[2]? with
  | none => .error .indexOutOfRange
  | some c2 =>
  match timeParse c2 with
  | none => .error .timeParse
  | some time =>
  match columns[3]? with
  | none => .error .indexOutOfRange
  | some c3 =>
  let postcodeParts := stringsSplitSpace c3
  match postcodeParts[0]? with
  | none => .error .indexOutOfRange
  | some p0 =>
  match (if postcodeParts.length = 2 then postcodeParts[1]? else some "") with
  | none => .error .indexOutOfRange
  | some p1 =>
  match columns[4]? with
  | none => .error .indexOutOfRange
  | some c4 =>
  match columns[5]? with
  | none => .error .indexOutOfRange
  | some c5 =>
  match columns[6]? with
  | none => .error .indexOutOfRange
  | some c6 =>
  .ok { price := i, date := time, postcode1 := p0, postcode2 := p1,
        propertyType := toPropertyType c4, propertyAge := toPropertyAge c5,
        duration := toDurationOfTransfer c6 }

/-! ## Text rendering of the enumerations (main.go 160-216) -/

/-- A Go `string`, under a name that stays apart from the `String` methods below. -/
abbrev GoString := String

/-- Go `var propertyTypeNames`. -/
def propertyTypeNames : List GoString :=
  ["Detached", "SemiDetached", "Terraced", "Flat", "Other"]

/-- Go `var propertyAgeNames`. -/
def propertyAgeNames : List GoString := ["New", "Old"]

/-- Go `var durationOfTransferNames`. -/
def durationOfTransferNames : List GoString := ["Freehold", "Leasehold"]

/-- Go `func (t PropertyType) String() string`: the guard on `int(t)`, then the index
expression, which can panic. -/
def PropertyType.String (t : PropertyType) : Except Fatal GoString :=
  if t.val.val ≥ propertyTypeNames.length then .ok ""
  else
    match propertyTypeNames[t.val.val]? with
    | none => .error .indexOutOfRange
    | some name => .ok name

/-- Go `func (t PropertyType) MarshalText() ([]byte, error)`: the bytes of `t.String()`,
kept as the string that has them, and the error, `none` for `nil`. -/
def PropertyType.MarshalText (t : PropertyType) : Except Fatal (GoString × Option GoString) :=
  match t.String with
  | .error err => .error err
  | .ok text => .ok (text, none)

/-- Go `func (t PropertyAge) String() string`. -/
def PropertyAge.String (t : PropertyAge) : Except Fatal GoString :=
  if t.val.val ≥ propertyAgeNames.length then .ok ""
  else
    match propertyAgeNames[t.val.val]? with
    | none => .error .indexOutOfRange
    | some name => .ok name

/-- Go `func (t PropertyAge) MarshalText() ([]byte, error)`. -/
def PropertyAge.MarshalText (t : PropertyAge) : Except Fatal (GoString × Option GoString) :=
  match t.String with
  | .error err => .error err
  | .ok text => .ok (text, none)

/-- Go `func (t DurationOfTransfer) String() string`. -/
def DurationOfTransfer.String (t : DurationOfTransfer) : Except Fatal GoString :=
  if t.val.val ≥ durationOfTransferNames.length then .ok ""
  else
    match durationOfTransferNames[t.val.val]? with
    | none => .error .indexOutOfRange
    | some name => .ok name

/-- Go `func (t DurationOfTransfer) MarshalText() ([]byte, error)`. -/
def DurationOfTransfer.MarshalText (t : DurationOfTransfer) :
    Except Fatal (GoString × Option GoString) :=
  match t.String with
  | .error err => .error err
  | .ok text => .ok (text, none)

/-! ## The location list and the filter of `parseAndFilter` (main.go 41-59, 291-305) -/

/-- Go `var LondonPostcodes`, in the order of the source. -/
def LondonPostcodes : List String := [
  "EC1A", "EC1M", "EC1N", "EC1P", "EC1R", "EC1V", "EC1Y", "EC2A", "EC2M", "EC2N", "EC2P", "EC2R",
  "EC2V", "EC2Y", "EC3A", "EC3M", "EC3N", "EC3P", "EC3R", "EC3V", "EC4A", "EC4M", "EC4N", "EC4P",
  "EC4R", "EC4V", "EC4Y", "WC1A", "WC1B", "WC1E", "WC1H", "WC1N", "WC1R", "WC1V", "WC1X", "WC2A",
  "WC2B", "WC2E", "WC2H", "WC2N", "WC2R", "E1", "E2", "E3", "E4", "E5", "E6", "E7", "E8", "E9",
  "E10", "E11", "E12", "E13", "E14", "E15", "E16", "E17", "E18", "E19", "E20", "N1", "N2", "N3",
  "N4", "N5", "N6", "N7", "N8", "N9", "N10", "N11", "N12", "N13", "N14", "N15", "N16", "N17",
  "N18", "N19", "N20", "N21", "N22", "NW1", "NW2", "NW3", "NW4", "NW5", "NW6", "NW7", "NW8",
  "NW9", "NW10", "NW11", "SE1", "SE2", "SE3", "SE4", "SE5", "SE6", "SE7", "SE8", "SE9", "SE10",
  "SE11", "SE12", "SE13", "SE14", "SE15", "SE16", "SE17", "SE18", "SE19", "SE20", "SE21", "SE22",
  "SE23", "SE24", "SE25", "SE26", "SE27", "SE28", "SW1", "SW2", "SW3", "SW4", "SW5", "SW6",
  "SW7", "SW8", "SW9", "SW10", "SW11", "SW12", "SW13", "SW14", "SW15", "SW16", "SW17", "SW18",
  "SW19", "SW20", "W1", "W2", "W3", "W4", "W5", "W6", "W7", "W8", "W9", "W10", "W11", "W12",
  "W13", "W14"]

/-- The loop of Go `sort.Search`: `for i < j { h := (i+j)/2; if !f(h) { i = h+1 } else { j = h } }`
and the final `return i`. The first argument bounds the number of iterations; `j - i`
iterations are always enough (`searchLoop_fuel`). -/
def searchLoop (f : Nat → Bool) : Nat → Nat → Nat → Nat
  | 0, i, _ => i
  | fuel + 1, i, j =>
    if i < j then
      let h := (i + j) / 2
      if !f h then searchLoop f fuel (h + 1) j else searchLoop f fuel i h
    else i

/-- Go `sort.Search(n, f)`, an `int`. -/
def sortSearch (n : Nat) (f : Nat → Bool) : Int :=
  Int.ofNat (searchLoop f n 0 n)

/-- Go `s < t` on strings: lexicographic, a proper prefix first. Go compares the bytes of
the strings; on UTF-8 text that is the order of the code points compared here. -/
def stringLess : List Char → List Char → Bool
  | _, [] => false
  | [], _ :: _ => true
  | a :: s, b :: t =>
    if a.toNat < b.toNat then true
    else if b.toNat < a.toNat then false
    else stringLess s t

/-- Go `sort.SearchStrings(a, x)`, that is `sort.Search(len(a), func(i) { return a[i] >= x })`. -/
def sortSearchStrings (a : List String) (x : String) : Int :=
  sortSearch a.length (fun i => !stringLess (a.getD i "").data x.data)

/-- The condition of the `if` at main.go 44-47, under which an entry is appended. -/
def filterCondition (entry : Entry) : Bool :=
  entry.postcode1 != "" &&
    decide (entry.date.Year ≥ 2015) &&
    entry.duration == Freehold &&
    decide (sortSearchStrings LondonPostcodes entry.postcode1 ≥ 0)

/-- The reading loop of `parseAndFilter` over the records the CSV reader yields, with the
slice `entries` built so far. -/
def readLoop : List (List String) → List Entry → Except Fatal (List Entry)
  | [], entries => .ok entries
  | columns :: rest, entries =>
    match toEntry columns with
    | .error err => .error err
    | .ok entry =>
      if filterCondition entry then readLoop rest (entries ++ [entry])
      else readLoop rest entries

/-- The `less` function given to `sort.Slice` at main.go 54-56. -/
def yearLess (a b : Entry) : Bool := decide (a.date.Year < b.date.Year)

/-- What `sort.Slice` promises for `less`: the result is a rearrangement of the slice in
which no later element is `less` than an earlier one. The algorithm belongs to the Go
library and is not stable, so the program is embedded over any function that keeps this
promise. -/
def SortsByYear (sortSlice : List Entry → List Entry) : Prop :=
  ∀ l, (sortSlice l).Perm l ∧ (sortSlice l).Pairwise (fun a b => yearLess b a = false)

/-- Go `parseAndFilter` over the records of the input file, with the implementation of
`sort.Slice` as a parameter. -/
def parseAndFilter (sortSlice : List Entry → List Entry) (records : List (List String)) :
    Except Fatal (List Entry) :=
  match readLoop records [] with
  | .error err => .error err
  | .ok entries => .ok (sortSlice entries)

/-- Inserting `x` into a slice held in reverse order, moving it towards the front of the
slice while it is `less` than its neighbour (the inner loop of an insertion sort). -/
def insertRev (x : Entry) : List Entry → List Entry
  | [] => [x]
  | y :: r => if yearLess x y then y :: insertRev x r else x :: y :: r

/-- Insertion sort by year, the algorithm `sort.Slice` runs on short slices. -/
def insertionSortByYear (l : List Entry) : List Entry :=
  (l.foldl (fun r x => insertRev x r) []).reverse

/-! ## Go maps -/

/-- A Go `map[K]V`. -/
abbrev GoMap (K V : Type) := List (K × V)

namespace GoMap

variable {K V : Type} [DecidableEq K]

/-- Go `v, ok := m[k]`. -/
def get? : GoMap K V → K → Option V
  | [], _ => none
  | (k1, v) :: m, k => if k1 = k then some v else get? m k

/-- Go `m[k] = v`. -/
def set : GoMap K V → K → V → GoMap K V
  | [], k, v => [(k, v)]
  | (k1, v1) :: m, k, v => if k1 = k then (k1, v) :: m else (k1, v1) :: set m k v

/-- The keys of the map. -/
def keys (m : GoMap K V) : List K := m.map Prod.fst

end GoMap

/-! ## The grouping loop of `processAndSave` (main.go 61-101) -/

/-- Go `type PostcodeYearTypeAgePricesMap`. -/
abbrev PostcodeYearTypeAgePricesMap :=
  GoMap String (GoMap Int (GoMap PropertyType (GoMap PropertyAge (List Int))))

/-- One iteration of the loop at main.go 75-101. -/
def groupStep (postcodeYearMap : PostcodeYearTypeAgePricesMap) (entry : Entry) :
    PostcodeYearTypeAgePricesMap :=
  let yearTypeMap := (postcodeYearMap.get? entry.postcode1).getD []
  let typeAgeMap := (yearTypeMap.get? entry.date.Year).getD []
  let agePricesMap := (typeAgeMap.get? entry.propertyType).getD []
  let prices := (agePricesMap.get? entry.propertyAge).getD []
  let prices := prices ++ [entry.price]
  let agePricesMap := agePricesMap.set entry.propertyAge prices
  let typeAgeMap := typeAgeMap.set entry.propertyType agePricesMap
  let yearTypeMap := yearTypeMap.set entry.date.Year typeAgeMap
  postcodeYearMap.set entry.postcode1 yearTypeMap

/-- The map `postcodeYearMap` that `processAndSave` has built when its loop ends. -/
def groupEntries (entries : List Entry) : PostcodeYearTypeAgePricesMap :=
  entries.foldl groupStep []

/-- A key path of the aggregate. -/
abbrev KeyPath := String × Int × PropertyType × PropertyAge

/-- The key path an entry is filed under. -/
def keyOf (entry : Entry) : KeyPath :=
  (entry.postcode1, entry.date.Year, entry.propertyType, entry.propertyAge)

/-- Go `m[k.1][k.2][k.3][k.4]` with presence: the leaf stored at a key path, if any. -/
def leafAt (m : PostcodeYearTypeAgePricesMap) (k : KeyPath) : Option (List Int) :=
  match m.get? k.1 with
  | none => none
  | some ym =>
    match ym.get? k.2.1 with
    | none => none
    | some tm =>
      match tm.get? k.2.2.1 with
      | none => none
      | some am => am.get? k.2.2.2

/-- All key paths of the aggregate with their leaves, level by level. -/
def leaves (m : PostcodeYearTypeAgePricesMap) : List (KeyPath × List Int) :=
  m.flatMap fun (p, ym) =>
    ym.flatMap fun (y, tm) =>
      tm.flatMap fun (t, am) =>
        am.map fun (a, prices) => ((p, y, t, a), prices)

/-- All key paths of the aggregate. -/
def keyPaths (m : PostcodeYearTypeAgePricesMap) : List KeyPath :=
  (leaves m).map Prod.fst

/-- The whole pipeline of `main` up to the aggregate, over the records of the input file. -/
def pipeline (sortSlice : List Entry → List Entry) (records : List (List String)) :
    Except Fatal PostcodeYearTypeAgePricesMap :=
  match parseAndFilter sortSlice records with
  | .error err => .error err
  | .ok entries => .ok (groupEntries entries)

/-! ## Reference definitions, worded as the specification words them -/

/-- The lookup table of property-type codes. -/
def propertyTypeTable : List (String × PropertyType) :=
  [("D", Detached), ("S", SemiDetached), ("T", Terraced), ("F", Flat)]

/-- The lookup table of property-age codes. -/
def propertyAgeTable : List (String × PropertyAge) := [("Y", New)]

/-- The lookup table of transfer-duration codes. -/
def durationTable : List (String × DurationOfTransfer) := [("F", Freehold)]

/-- Membership by a linear scan for an element exactly equal to the code. -/
def linearScan (a : List String) (code : String) : Bool :=
  a.any (fun x => x == code)

/-- The prices of exactly those entries that have the key path `k`, in input order. -/
def pricesWithKey (entries : List Entry) (k : KeyPath) : List Int :=
  (entries.filter (fun e => decide (keyOf e = k))).map Entry.price

/-- Every map stored below the top level of the aggregate, and every leaf, is non-empty. -/
def NonEmptyBelow (m : PostcodeYearTypeAgePricesMap) : Prop :=
  ∀ p ym, (p, ym) ∈ m → ym ≠ [] ∧
    ∀ y tm, (y, tm) ∈ ym → tm ≠ [] ∧
      ∀ t am, (t, am) ∈ tm → am ≠ [] ∧
        ∀ a prices, (a, prices) ∈ am → prices ≠ []

/-- Strictly ascending order of a list of strings in the order `sort.SearchStrings`
compares by: every element is less than its successor. -/
def strictlyAscending : List String → Bool
  | a :: b :: rest => stringLess a.data b.data && strictlyAscending (b :: rest)
  | _ => true

/-- Membership by binary search as `sort.SearchStrings` is meant to be used: the element at
the index returned is compared with the code. -/
def binarySearchMember (a : List String) (code : String) : Bool :=
  match a[(sortSearchStrings a code).toNat]? with
  | none => false
  | some x => x == code

/-- Classifying all records in input order; the first fatal error ends the run. -/
def classifyAll : List (List String) → Except Fatal (List Entry)
  | [] => .ok []
  | columns :: rest =>
    match toEntry columns with
    | .error err => .error err
    | .ok entry =>
      match classifyAll rest with
      | .error err => .error err
      | .ok entries => .ok (entry :: entries)

/-- The total number of prices over all leaves of the aggregate. -/
def totalPrices (m : PostcodeYearTypeAgePricesMap) : Nat :=
  ((leaves m).map (fun kl => kl.2.length)).sum

/-- The number of entries with the key path `k` and the price `p`. -/
def countWithKeyAndPrice (entries : List Entry) (k : KeyPath) (p : Int) : Nat :=
  (entries.filter (fun e => decide (keyOf e = k ∧ e.price = p))).length

/-- No key occurs twice in a map, at any level of the aggregate. -/
def NodupKeys (m : PostcodeYearTypeAgePricesMap) : Prop :=
  m.keys.Nodup ∧
    ∀ p ym, (p, ym) ∈ m → ym.keys.Nodup ∧
      ∀ y tm, (y, tm) ∈ ym → tm.keys.Nodup ∧
        ∀ t am, (t, am) ∈ tm → am.keys.Nodup

/-! ## Concrete inputs -/

/-- The third raw record of the end-to-end scenario, as the CSV reader yields it. -/
def recordZZ99 : List String :=
  ["", "200000", "2017-05-05 10:00", "ZZ99 9ZZ", "F", "Y", "F"]

/-- The three raw records of the end-to-end scenario, as the CSV reader yields them (the
field at index 0 is not read). -/
def scenarioRecords : List (List String) :=
  [["", "500000", "2016-03-01 10:00", "SW1 9AA", "D", "N", "F"],
   ["", "300000", "2014-01-01 10:00", "SW1 9AB", "D", "N", "F"],
   recordZZ99]

/-- The entry `toEntry` makes of the first record of the scenario. -/
def entryScenario1 : Entry :=
  { price := 500000, date := ⟨2016, 3, 1, 10, 0⟩, postcode1 := "SW1", postcode2 := "9AA",
    propertyType := Detached, propertyAge := Old, duration := Freehold }

/-- The entry `toEntry` makes of `recordZZ99`. -/
def entryZZ99 : Entry :=
  { price := 200000, date := ⟨2017, 5, 5, 10, 0⟩, postcode1 := "ZZ99", postcode2 := "9ZZ",
    propertyType := Flat, propertyAge := New, duration := Freehold }

/-- The same sale as `entryZZ99` in a district of the list. -/
def entrySW1 : Entry := { entryZZ99 with postcode1 := "SW1" }

/-- A later sale under the key path of `entrySW1`. -/
def entrySW1b : Entry := { entrySW1 with price := 450000, date := ⟨2017, 9, 30, 16, 45⟩ }

/-! ## Theorems: `sort.Search` -/

theorem searchLoop_fuel (f : Nat → Bool) :
    ∀ (fuel1 fuel2 i j : Nat), j - i ≤ fuel1 → j - i ≤ fuel2 →
      searchLoop f fuel1 i j = searchLoop f fuel2 i j := by
  intro fuel1
  induction fuel1 with
  | zero =>
    intro fuel2 i j h1 _
    have hij : ¬ i < j := by omega
    cases fuel2 with
    | zero => rfl
    | succ n => simp [searchLoop, hij]
  | succ n ih =>
    intro fuel2 i j h1 h2
    cases fuel2 with
    | zero =>
      have hij : ¬ i < j := by omega
      simp [searchLoop, hij]
    | succ m =>
      simp only [searchLoop]
      by_cases hij : i < j
      · simp only [hij, if_true]
        have hlo : i ≤ (i + j) / 2 := by omega
        have hhi : (i + j) / 2 < j := by omega
        by_cases hf : f ((i + j) / 2) = true
        · simp only [hf, Bool.not_true, Bool.false_eq_true, if_false]
          exact ih m i ((i + j) / 2) (by omega) (by omega)
        · simp only [hf, Bool.not_eq_true] at hf ⊢
          simp only [hf, Bool.not_false, if_true]
          exact ih m ((i + j) / 2 + 1) j (by omega) (by omega)
      · simp [hij]

theorem searchLoop_le (f : Nat → Bool) :
    ∀ (fuel i j : Nat), i ≤ j → searchLoop f fuel i j ≤ j := by
  intro fuel
  induction fuel with
  | zero => intro i j h; simpa [searchLoop] using h
  | succ n ih =>
    intro i j h
    simp only [searchLoop]
    by_cases hij : i < j
    · simp only [hij, if_true]
      by_cases hf : f ((i + j) / 2) = true
      · simp only [hf, Bool.not_true, Bool.false_eq_true, if_false]
        exact le_trans (ih i ((i + j) / 2) (by omega)) (by omega)
      · simp only [Bool.not_eq_true] at hf
        simp only [hf, Bool.not_false, if_true]
        exact ih ((i + j) / 2 + 1) j (by omega)
    · simpa [hij] using h

theorem sortSearchStrings_nonneg (a : List String) (x : String) :
    0 ≤ sortSearchStrings a x := by
  unfold sortSearchStrings sortSearch
  exact Int.ofNat_zero_le _

theorem sortSearchStrings_le_length (a : List String) (x : String) :
    sortSearchStrings a x ≤ (a.length : Int) := by
  unfold sortSearchStrings sortSearch
  exact Int.ofNat_le.mpr (searchLoop_le _ _ _ _ (Nat.zero_le _))

/-! ## Theorems: the filter -/

theorem filterCondition_iff (e : Entry) :
    filterCondition e = true ↔
      e.postcode1 ≠ "" ∧ 2015 ≤ e.date.Year ∧ e.duration = Freehold := by
  have h := sortSearchStrings_nonneg LondonPostcodes e.postcode1
  simp [filterCondition, h, and_assoc]

/-- C1, where the code departs from it: the filter keeps the entry made of `recordZZ99`,
whose location "ZZ99" is non-empty and not an element of `LondonPostcodes`; and replacing
the location "SW1" of a kept entry by "ZZ99", all else fixed, leaves the entry kept. -/
theorem C1_filter_keeps_location_outside_list :
    toEntry recordZZ99 = .ok entryZZ99 ∧
    entryZZ99.postcode1 ∉ LondonPostcodes ∧
    filterCondition entryZZ99 = true ∧
    entrySW1.postcode1 ∈ LondonPostcodes ∧
    filterCondition entrySW1 = true ∧
    entryZZ99 = { entrySW1 with postcode1 := "ZZ99" } := by
  refine ⟨by rfl, by decide, by rfl, by decide, by rfl, by rfl⟩

/-- C4: each classifier is a total function equal to its lookup table with the fallback
category: `Other` for the type, `Old` for the age, `Leasehold` for the duration; in
particular "Z", "N" and "L" fall back. -/
theorem C4_classifiers_are_table_lookups (s : String) :
    toPropertyType s = (propertyTypeTable.lookup s).getD Other ∧
    toPropertyAge s = (propertyAgeTable.lookup s).getD Old ∧
    toDurationOfTransfer s = (durationTable.lookup s).getD Leasehold ∧
    toPropertyType "Z" = Other ∧ toPropertyAge "N" = Old ∧
    toDurationOfTransfer "L" = Leasehold := by
  refine ⟨?_, ?_, ?_, by decide, by decide, by decide⟩
  · unfold toPropertyType propertyTypeTable
    by_cases hD : s = "D"
    · subst hD; rfl
    by_cases hS : s = "S"
    · subst hS; rfl
    by_cases hT : s = "T"
    · subst hT; rfl
    by_cases hF : s = "F"
    · subst hF; rfl
    have hD1 : (s == "D") = false := beq_eq_false_iff_ne.mpr hD
    have hS1 : (s == "S") = false := beq_eq_false_iff_ne.mpr hS
    have hT1 : (s == "T") = false := beq_eq_false_iff_ne.mpr hT
    have hF1 : (s == "F") = false := beq_eq_false_iff_ne.mpr hF
    simp [List.lookup, hD, hS, hT, hF, hD1, hS1, hT1, hF1]
  · unfold toPropertyAge propertyAgeTable
    by_cases hY : s = "Y"
    · subst hY; rfl
    have hY1 : (s == "Y") = false := beq_eq_false_iff_ne.mpr hY
    simp [List.lookup, hY, hY1]
  · unfold toDurationOfTransfer durationTable
    by_cases hF : s = "F"
    · subst hF; rfl
    have hF1 : (s == "F") = false := beq_eq_false_iff_ne.mpr hF
    simp [List.lookup, hF, hF1]

/-- C5, where the code departs from it: the test `sort.SearchStrings(LondonPostcodes, c) >= 0`
is true of every code `c`, also of "ZZ99", which a linear scan of the list does not find:
the search returns 156, the length of the list. -/
theorem C5_search_test_accepts_absent_code :
    (∀ c : String, decide (sortSearchStrings LondonPostcodes c ≥ 0) = true) ∧
    sortSearchStrings LondonPostcodes "ZZ99" = 156 ∧
    LondonPostcodes.length = 156 ∧
    linearScan LondonPostcodes "ZZ99" = false := by
  refine ⟨fun c => ?_, ?_, by rfl, by decide⟩
  · simpa using sortSearchStrings_nonneg LondonPostcodes c
  · set_option maxRecDepth 20000 in rfl

/-! ## Theorems: Go maps -/

namespace GoMap

variable {K V : Type} [DecidableEq K]

theorem get?_set_self (m : GoMap K V) (k : K) (v : V) : (m.set k v).get? k = some v := by
  induction m with
  | nil => simp [set, get?]
  | cons kv m ih =>
    obtain ⟨k1, v1⟩ := kv
    by_cases h : k1 = k
    · simp [set, get?, h]
    · simp [set, get?, h, ih]

theorem get?_set_of_ne (m : GoMap K V) {k k2 : K} (v : V) (h : k ≠ k2) :
    (m.set k v).get? k2 = m.get? k2 := by
  induction m with
  | nil => simp [set, get?, h]
  | cons kv m ih =>
    obtain ⟨k1, v1⟩ := kv
    by_cases h1 : k1 = k
    · subst h1
      simp [set, get?, h]
    · by_cases h2 : k1 = k2
      · subst h2
        simp [set, get?, h1]
      · simp [set, get?, h1, h2, ih]

theorem set_ne_nil (m : GoMap K V) (k : K) (v : V) : m.set k v ≠ [] := by
  cases m with
  | nil => simp [set]
  | cons kv m =>
    obtain ⟨k1, v1⟩ := kv
    by_cases h : k1 = k <;> simp [set, h]

theorem mem_of_get? {m : GoMap K V} {k : K} {v : V} (h : m.get? k = some v) : (k, v) ∈ m := by
  induction m with
  | nil => simp [get?] at h
  | cons kv m ih =>
    obtain ⟨k1, v1⟩ := kv
    by_cases h1 : k1 = k
    · simp [get?, h1] at h
      simp [h1, h]
    · simp [get?, h1] at h
      exact List.mem_cons_of_mem _ (ih h)

theorem mem_set {m : GoMap K V} {k : K} {v : V} {x : K × V} (h : x ∈ m.set k v) :
    x ∈ m ∨ x = (k, v) := by
  induction m with
  | nil => simpa [set] using h
  | cons kv m ih =>
    obtain ⟨k1, v1⟩ := kv
    by_cases h1 : k1 = k
    · simp [set, h1] at h
      rcases h with h | h
      · right; exact h
      · left; exact List.mem_cons_of_mem _ h
    · simp [set, h1] at h
      rcases h with h | h
      · left; simp [h]
      · rcases ih h with h2 | h2
        · left; exact List.mem_cons_of_mem _ h2
        · right; exact h2

theorem mem_getD_of_get? {m : GoMap K (List V)} {k : K} {x : V}
    (h : x ∈ (m.get? k).getD []) : ∃ l, (k, l) ∈ m ∧ x ∈ l := by
  cases hg : m.get? k with
  | none => simp [hg] at h
  | some l =>
    rw [hg] at h
    exact ⟨l, mem_of_get? hg, h⟩

end GoMap

/-! ## Theorems: the grouping loop -/

theorem get?_nil {K V : Type} [DecidableEq K] (k : K) : GoMap.get? ([] : GoMap K V) k = none := rfl

theorem leafAt_groupStep (m : PostcodeYearTypeAgePricesMap) (e : Entry) (k : KeyPath) :
    leafAt (groupStep m e) k =
      if keyOf e = k then some ((leafAt m k).getD [] ++ [e.price]) else leafAt m k := by
  obtain ⟨p, y, t, a⟩ := k
  by_cases hp : e.postcode1 = p
  · subst hp
    by_cases hy : e.date.Year = y
    · subst hy
      by_cases ht : e.propertyType = t
      · subst ht
        by_cases ha : e.propertyAge = a
        · subst ha
          simp only [leafAt, groupStep, keyOf, GoMap.get?_set_self, if_true]
          cases h1 : GoMap.get? m e.postcode1 with
          | none => simp [get?_nil]
          | some ym =>
            cases h2 : GoMap.get? ym e.date.Year with
            | none => simp [get?_nil, h2]
            | some tm =>
              cases h3 : GoMap.get? tm e.propertyType with
              | none => simp [get?_nil, h2, h3]
              | some am => simp [h2, h3]
        · have hk : ¬ keyOf e = (e.postcode1, e.date.Year, e.propertyType, a) := by
            simp [keyOf, ha]
          simp only [leafAt, groupStep, GoMap.get?_set_self, GoMap.get?_set_of_ne _ _ ha, hk,
            if_false]
          cases h1 : GoMap.get? m e.postcode1 with
          | none => simp [get?_nil]
          | some ym =>
            cases h2 : GoMap.get? ym e.date.Year with
            | none => simp [get?_nil, h2]
            | some tm =>
              cases h3 : GoMap.get? tm e.propertyType with
              | none => simp [get?_nil, h2, h3]
              | some am => simp [h2, h3]
      · have hk : ¬ keyOf e = (e.postcode1, e.date.Year, t, a) := by
          simp [keyOf, ht]
        simp only [leafAt, groupStep, GoMap.get?_set_self, GoMap.get?_set_of_ne _ _ ht, hk,
          if_false]
        cases h1 : GoMap.get? m e.postcode1 with
        | none => simp [get?_nil]
        | some ym =>
          cases h2 : GoMap.get? ym e.date.Year with
          | none => simp [get?_nil, h2]
          | some tm => simp [h2]
    · have hk : ¬ keyOf e = (e.postcode1, y, t, a) := by
        simp [keyOf, hy]
      simp only [leafAt, groupStep, GoMap.get?_set_self, GoMap.get?_set_of_ne _ _ hy, hk,
        if_false]
      cases h1 : GoMap.get? m e.postcode1 with
      | none => simp [get?_nil]
      | some ym => simp
  · have hk : ¬ keyOf e = (p, y, t, a) := by
      simp [keyOf, hp]
    simp only [leafAt, groupStep, GoMap.get?_set_of_ne _ _ hp, hk, if_false]

theorem leafAt_foldl_groupStep (es : List Entry) (m : PostcodeYearTypeAgePricesMap)
    (k : KeyPath) :
    leafAt (es.foldl groupStep m) k =
      if pricesWithKey es k = [] then leafAt m k
      else some ((leafAt m k).getD [] ++ pricesWithKey es k) := by
  induction es generalizing m with
  | nil => simp [pricesWithKey]
  | cons e es ih =>
    rw [List.foldl_cons, ih, leafAt_groupStep]
    by_cases hk : keyOf e = k
    · by_cases ht : pricesWithKey es k = []
      · simp [pricesWithKey, hk, List.filter_cons] at ht ⊢
      · simp [pricesWithKey, hk, List.filter_cons] at ht ⊢
    · simp [pricesWithKey, hk, List.filter_cons]

theorem leafAt_groupEntries (es : List Entry) (k : KeyPath) :
    leafAt (groupEntries es) k =
      if pricesWithKey es k = [] then none else some (pricesWithKey es k) := by
  unfold groupEntries
  rw [leafAt_foldl_groupStep]
  simp [leafAt, get?_nil]

theorem pricesWithKey_eq_nil_iff (es : List Entry) (k : KeyPath) :
    pricesWithKey es k = [] ↔ ¬ ∃ e ∈ es, keyOf e = k := by
  simp [pricesWithKey, List.filter_eq_nil_iff]

theorem nonEmptyBelow_groupStep (m : PostcodeYearTypeAgePricesMap) (e : Entry)
    (h : NonEmptyBelow m) : NonEmptyBelow (groupStep m e) := by
  intro p ym hp
  rcases GoMap.mem_set hp with hp | hp
  · exact h p ym hp
  · simp only [Prod.mk.injEq] at hp
    obtain ⟨-, rfl⟩ := hp
    refine ⟨GoMap.set_ne_nil _ _ _, ?_⟩
    intro y tm hy
    rcases GoMap.mem_set hy with hy | hy
    · obtain ⟨ym0, hm0, hy0⟩ := GoMap.mem_getD_of_get? hy
      exact (h _ ym0 hm0).2 y tm hy0
    · simp only [Prod.mk.injEq] at hy
      obtain ⟨-, rfl⟩ := hy
      refine ⟨GoMap.set_ne_nil _ _ _, ?_⟩
      intro t am ht
      rcases GoMap.mem_set ht with ht | ht
      · obtain ⟨tm0, hm1, ht0⟩ := GoMap.mem_getD_of_get? ht
        obtain ⟨ym0, hm0, hy0⟩ := GoMap.mem_getD_of_get? hm1
        exact ((h _ ym0 hm0).2 _ tm0 hy0).2 t am ht0
      · simp only [Prod.mk.injEq] at ht
        obtain ⟨-, rfl⟩ := ht
        refine ⟨GoMap.set_ne_nil _ _ _, ?_⟩
        intro a prices ha
        rcases GoMap.mem_set ha with ha | ha
        · obtain ⟨am0, hm2, ha0⟩ := GoMap.mem_getD_of_get? ha
          obtain ⟨tm0, hm1, ht0⟩ := GoMap.mem_getD_of_get? hm2
          obtain ⟨ym0, hm0, hy0⟩ := GoMap.mem_getD_of_get? hm1
          exact (((h _ ym0 hm0).2 _ tm0 hy0).2 _ am0 ht0).2 a prices ha0
        · simp only [Prod.mk.injEq] at ha
          obtain ⟨-, rfl⟩ := ha
          simp

theorem nonEmptyBelow_foldl (es : List Entry) (m : PostcodeYearTypeAgePricesMap)
    (h : NonEmptyBelow m) : NonEmptyBelow (es.foldl groupStep m) := by
  induction es generalizing m with
  | nil => simpa using h
  | cons e es ih =>
    rw [List.foldl_cons]
    exact ih _ (nonEmptyBelow_groupStep m e h)

theorem nonEmptyBelow_groupEntries (es : List Entry) : NonEmptyBelow (groupEntries es) := by
  apply nonEmptyBelow_foldl
  intro p ym hp
  simp at hp

/-- C2: for every input sequence and every key path, the leaf the grouping loop stores at
the key path is the list of the prices of exactly the entries with that key path, in input
order (and no leaf is stored when there is no such entry); two entries `E1`, `E2` with one
key path give the leaf `[E1.price, E2.price]`. -/
theorem C2_leaf_is_prices_in_input_order (entries : List Entry) (k : KeyPath)
    (E1 E2 : Entry) (hkey : keyOf E1 = keyOf E2) :
    leafAt (groupEntries entries) k =
        (if pricesWithKey entries k = [] then none else some (pricesWithKey entries k)) ∧
      (leafAt (groupEntries entries) k).getD [] = pricesWithKey entries k ∧
      leafAt (groupEntries [E1, E2]) (keyOf E1) = some [E1.price, E2.price] := by
  refine ⟨leafAt_groupEntries entries k, ?_, ?_⟩
  · rw [leafAt_groupEntries]
    by_cases h : pricesWithKey entries k = [] <;> simp [h]
  · rw [leafAt_groupEntries]
    simp [pricesWithKey, hkey.symm]

theorem C2_leaf_is_prices_in_input_order_witness :
    keyOf entrySW1 = keyOf entrySW1b ∧
      (leafAt (groupEntries [entrySW1, entryZZ99, entrySW1b]) (keyOf entrySW1)).getD [] =
        pricesWithKey [entrySW1, entryZZ99, entrySW1b] (keyOf entrySW1) ∧
      leafAt (groupEntries [entrySW1, entrySW1b]) (keyOf entrySW1) =
        some [entrySW1.price, entrySW1b.price] :=
  ⟨by decide,
    (C2_leaf_is_prices_in_input_order [entrySW1, entryZZ99, entrySW1b] (keyOf entrySW1)
      entrySW1 entrySW1b (by decide)).2.1,
    (C2_leaf_is_prices_in_input_order [entrySW1, entryZZ99, entrySW1b] (keyOf entrySW1)
      entrySW1 entrySW1b (by decide)).2.2⟩

/-- C7: a key path is present in the aggregate of the grouping loop if and only if some
input entry has exactly that key path; the leaf at a present key path is non-empty, and so
is every map stored below the top level and every leaf stored in one. -/
theorem C7_key_path_present_iff_entry (entries : List Entry) (k : KeyPath) :
    ((leafAt (groupEntries entries) k).isSome = true ↔ ∃ e ∈ entries, keyOf e = k) ∧
      (∀ leaf, leafAt (groupEntries entries) k = some leaf → leaf ≠ []) ∧
      NonEmptyBelow (groupEntries entries) := by
  refine ⟨?_, ?_, nonEmptyBelow_groupEntries entries⟩
  · rw [leafAt_groupEntries, ← not_iff_not, ← pricesWithKey_eq_nil_iff]
    by_cases h : pricesWithKey entries k = [] <;> simp [h]
  · intro leaf hleaf
    rw [leafAt_groupEntries] at hleaf
    by_cases h : pricesWithKey entries k = []
    · simp [h] at hleaf
    · simp only [h, if_false, Option.some.injEq] at hleaf
      exact hleaf ▸ h

theorem C7_key_path_present_iff_entry_witness :
    (leafAt (groupEntries [entrySW1, entryZZ99]) (keyOf entryZZ99)).isSome = true ∧
      ¬ (leafAt (groupEntries [entrySW1, entryZZ99]) ("N1", 2017, Flat, New)).isSome = true :=
  ⟨(C7_key_path_present_iff_entry [entrySW1, entryZZ99] (keyOf entryZZ99)).1.mpr
      ⟨entryZZ99, by simp, rfl⟩,
    fun h =>
      absurd ((C7_key_path_present_iff_entry [entrySW1, entryZZ99] ("N1", 2017, Flat, New)).1.mp h)
        (by decide)⟩

/-! ## Theorems: sorting and the pipeline -/

theorem insertRev_perm (x : Entry) (r : List Entry) : (insertRev x r).Perm (x :: r) := by
  induction r with
  | nil => simp [insertRev]
  | cons y r ih =>
    by_cases h : yearLess x y = true
    · simp only [insertRev, h, if_true]
      exact (List.Perm.cons y ih).trans (List.Perm.swap x y r)
    · simp [insertRev, h]

theorem foldl_insertRev_perm (l r : List Entry) :
    (l.foldl (fun r x => insertRev x r) r).Perm (l.reverse ++ r) := by
  induction l generalizing r with
  | nil => simp
  | cons x l ih =>
    rw [List.foldl_cons]
    refine (ih (insertRev x r)).trans ?_
    rw [List.reverse_cons, List.append_assoc]
    exact List.Perm.append_left _ (insertRev_perm x r)

theorem insertRev_pairwise (x : Entry) (r : List Entry)
    (h : r.Pairwise (fun a b => yearLess a b = false)) :
    (insertRev x r).Pairwise (fun a b => yearLess a b = false) := by
  induction r with
  | nil => simp [insertRev]
  | cons y r ih =>
    rw [List.pairwise_cons] at h
    by_cases hxy : yearLess x y = true
    · simp only [insertRev, hxy, if_true]
      rw [List.pairwise_cons]
      refine ⟨?_, ih h.2⟩
      intro z hz
      have hz1 := (insertRev_perm x r).mem_iff.mp hz
      rw [List.mem_cons] at hz1
      rcases hz1 with hz1 | hz1
      · subst hz1
        simp only [yearLess, decide_eq_true_eq, decide_eq_false_iff_not] at hxy ⊢
        omega
      · exact h.1 z hz1
    · simp only [Bool.not_eq_true] at hxy
      simp only [insertRev, hxy, Bool.false_eq_true, if_false]
      rw [List.pairwise_cons, List.pairwise_cons]
      refine ⟨?_, h⟩
      intro z hz
      simp only [List.mem_cons] at hz
      rcases hz with hz | hz
      · subst hz; exact hxy
      · have hyz := h.1 z hz
        simp only [yearLess, decide_eq_false_iff_not] at hxy hyz ⊢
        omega

theorem foldl_insertRev_pairwise (l r : List Entry)
    (h : r.Pairwise (fun a b => yearLess a b = false)) :
    (l.foldl (fun r x => insertRev x r) r).Pairwise (fun a b => yearLess a b = false) := by
  induction l generalizing r with
  | nil => simpa using h
  | cons x l ih =>
    rw [List.foldl_cons]
    exact ih _ (insertRev_pairwise x r h)

theorem insertionSortByYear_sortsByYear : SortsByYear insertionSortByYear := by
  intro l
  constructor
  · unfold insertionSortByYear
    refine (List.reverse_perm _).trans ((foldl_insertRev_perm l []).trans ?_)
    rw [List.append_nil]
    exact List.reverse_perm l
  · unfold insertionSortByYear
    rw [List.pairwise_reverse]
    exact foldl_insertRev_pairwise l [] List.Pairwise.nil

theorem pricesWithKey_perm {l1 l2 : List Entry} (h : l1.Perm l2) (k : KeyPath) :
    (pricesWithKey l1 k).Perm (pricesWithKey l2 k) :=
  (h.filter _).map _

theorem readLoop_ok_mem (records : List (List String)) :
    ∀ (acc l : List Entry), readLoop records acc = .ok l →
      ∀ e ∈ l, e ∈ acc ∨ filterCondition e = true := by
  induction records with
  | nil =>
    intro acc l h e he
    simp only [readLoop, Except.ok.injEq] at h
    exact Or.inl (h ▸ he)
  | cons columns rest ih =>
    intro acc l h e he
    simp only [readLoop] at h
    split at h
    · cases h
    · rename_i entry _
      by_cases hf : filterCondition entry = true
      · simp only [hf, if_true] at h
        rcases ih _ l h e he with hmem | hpass
        · rw [List.mem_append, List.mem_singleton] at hmem
          rcases hmem with hmem | hmem
          · exact Or.inl hmem
          · exact Or.inr (hmem ▸ hf)
        · exact Or.inr hpass
      · simp only [hf] at h
        exact ih _ l h e he

theorem parseAndFilter_all_pass (sortSlice : List Entry → List Entry)
    (hs : SortsByYear sortSlice) (records : List (List String)) (entries : List Entry)
    (h : parseAndFilter sortSlice records = .ok entries) :
    ∀ e ∈ entries, e.postcode1 ≠ "" ∧ 2015 ≤ e.date.Year ∧ e.duration = Freehold := by
  intro e he
  unfold parseAndFilter at h
  split at h
  · cases h
  · rename_i l hl
    simp only [Except.ok.injEq] at h
    subst h
    have hmem := (hs l).1.mem_iff.mp he
    rcases readLoop_ok_mem records [] l hl e hmem with hnil | hpass
    · simp at hnil
    · exact (filterCondition_iff e).mp hpass

theorem readLoop_scenarioRecords :
    readLoop scenarioRecords [] = .ok [entryScenario1, entryZZ99] := by rfl

/-- C3 as stated fails: on the three records of the scenario the aggregate has two key
paths, "SW1" -> 2016 -> Detached -> Old and "ZZ99" -> 2017 -> Flat -> New, and nothing at
"SW1" -> 2016 -> Detached -> New. -/
theorem C3_scenario_counterexample :
    ∃ agg, pipeline insertionSortByYear scenarioRecords = .ok agg ∧
      keyPaths agg = [("SW1", 2016, Detached, Old), ("ZZ99", 2017, Flat, New)] ∧
      keyPaths agg ≠ [("SW1", 2016, Detached, New)] ∧
      leafAt agg ("SW1", 2016, Detached, New) = none :=
  ⟨groupEntries [entryScenario1, entryZZ99], by rfl, by rfl, by decide, by rfl⟩

/-- C3 amended: on the three records of the scenario, whatever `sort.Slice` does within
its promise, the run ends with an aggregate in which the leaf at
"SW1" -> 2016 -> Detached -> Old is `[500000]` (the age code "N" is `Old`), and this is the
only key path present whose location is an element of `LondonPostcodes`. -/
theorem C3_scenario_paths_within_list (sortSlice : List Entry → List Entry)
    (hs : SortsByYear sortSlice) :
    ∃ agg, pipeline sortSlice scenarioRecords = .ok agg ∧
      leafAt agg ("SW1", 2016, Detached, Old) = some [500000] ∧
      ∀ k : KeyPath, k.1 ∈ LondonPostcodes → (leafAt agg k).isSome = true →
        k = ("SW1", 2016, Detached, Old) := by
  refine ⟨groupEntries (sortSlice [entryScenario1, entryZZ99]), ?_, ?_, ?_⟩
  · simp [pipeline, parseAndFilter, readLoop_scenarioRecords]
  · have hp := pricesWithKey_perm (hs [entryScenario1, entryZZ99]).1
      ("SW1", 2016, Detached, Old)
    have h1 : pricesWithKey [entryScenario1, entryZZ99] ("SW1", 2016, Detached, Old) =
        [500000] := by decide
    rw [h1, List.perm_singleton] at hp
    rw [leafAt_groupEntries, hp]
    simp
  · intro k hk hsome
    rw [leafAt_groupEntries] at hsome
    by_cases hnil : pricesWithKey (sortSlice [entryScenario1, entryZZ99]) k = []
    · simp [hnil] at hsome
    · rw [pricesWithKey_eq_nil_iff, not_not] at hnil
      obtain ⟨e, he, hek⟩ := hnil
      have he1 := (hs [entryScenario1, entryZZ99]).1.mem_iff.mp he
      simp only [List.mem_cons, List.mem_singleton, List.not_mem_nil, or_false] at he1
      rcases he1 with he1 | he1
      · rw [← hek, he1]; rfl
      · exfalso
        rw [← hek, he1] at hk
        revert hk
        decide

theorem C3_scenario_paths_within_list_witness :
    ∃ agg, pipeline insertionSortByYear scenarioRecords = .ok agg ∧
      leafAt agg ("SW1", 2016, Detached, Old) = some [500000] ∧
      ∀ k : KeyPath, k.1 ∈ LondonPostcodes → (leafAt agg k).isSome = true →
        k = ("SW1", 2016, Detached, Old) :=
  C3_scenario_paths_within_list insertionSortByYear insertionSortByYear_sortsByYear

/-- C6, where the code departs from it: the run on the single record `recordZZ99` ends
with an aggregate whose only location key is "ZZ99", which is not an element of
`LondonPostcodes`. -/
theorem C6_aggregate_has_location_outside_list :
    pipeline insertionSortByYear [recordZZ99] =
        .ok [("ZZ99", [(2017, [(Flat, [(New, [200000])])])])] ∧
      "ZZ99" ∉ LondonPostcodes ∧
      linearScan LondonPostcodes "ZZ99" = false :=
  ⟨by rfl, by decide, by decide⟩

/-! ## Theorems: `toEntry` -/

theorem toEntry_ok {columns : List String} {e : Entry} (h : toEntry columns = .ok e) :
    ∃ c1 c2 c3 c4 c5 c6 i time p0 p1,
      columns[1]? = some c1 ∧ strconvAtoi c1 = some i ∧
      columns[2]? = some c2 ∧ timeParse c2 = some time ∧
      columns[3]? = some c3 ∧ (stringsSplitSpace c3)[0]? = some p0 ∧
      (if (stringsSplitSpace c3).length = 2 then (stringsSplitSpace c3)[1]? else some "") =
        some p1 ∧
      columns[4]? = some c4 ∧ columns[5]? = some c5 ∧ columns[6]? = some c6 ∧
      e = { price := i, date := time, postcode1 := p0, postcode2 := p1,
            propertyType := toPropertyType c4, propertyAge := toPropertyAge c5,
            duration := toDurationOfTransfer c6 } := by
  unfold toEntry at h
  split at h
  · cases h
  rename_i c1 h1
  split at h
  · cases h
  rename_i i hi
  split at h
  · cases h
  rename_i c2 h2
  split at h
  · cases h
  rename_i time ht
  split at h
  · cases h
  rename_i c3 h3
  simp only at h
  split at h
  · cases h
  rename_i p0 hp0
  split at h
  · cases h
  rename_i p1 hp1
  split at h
  · cases h
  rename_i c4 h4
  split at h
  · cases h
  rename_i c5 h5
  split at h
  · cases h
  rename_i c6 h6
  refine ⟨c1, c2, c3, c4, c5, c6, i, time, p0, p1, h1, hi, h2, ht, h3, hp0, hp1, h4, h5, h6, ?_⟩
  injection h with h
  exact h.symm


theorem splitChars_ne_nil (sep : Char) (cs : List Char) : splitChars sep cs ≠ [] := by
  cases cs with
  | nil => simp [splitChars]
  | cons c cs =>
    by_cases h : c = sep
    · simp [splitChars, h]
    · simp only [splitChars, h, if_false]
      split <;> simp

theorem splitChars_head (sep : Char) (cs : List Char) :
    (splitChars sep cs)[0]? = some (cs.takeWhile (fun c => c != sep)) := by
  induction cs with
  | nil => simp [splitChars]
  | cons c cs ih =>
    by_cases h : c = sep
    · simp [splitChars, h]
    · simp only [splitChars, h, if_false]
      split
      · rename_i hnil
        exact absurd hnil (splitChars_ne_nil sep cs)
      · rename_i p ps hp
        rw [hp] at ih
        simp at ih
        simp [List.takeWhile_cons, h, ih]

theorem splitChars_length (sep : Char) (cs : List Char) :
    (splitChars sep cs).length = cs.count sep + 1 := by
  induction cs with
  | nil => simp [splitChars]
  | cons c cs ih =>
    by_cases h : c = sep
    · simp [splitChars, h, ih]
    · simp only [splitChars, h, if_false]
      split
      · rename_i hnil
        exact absurd hnil (splitChars_ne_nil sep cs)
      · rename_i p ps hp
        rw [hp] at ih
        simp only [List.length_cons] at ih ⊢
        rw [ih, List.count_cons_of_ne (fun hc => h hc.symm)]

theorem splitChars_of_not_mem (sep : Char) (cs : List Char) (h : sep ∉ cs) :
    splitChars sep cs = [cs] := by
  induction cs with
  | nil => simp [splitChars]
  | cons c cs ih =>
    simp only [List.mem_cons, not_or] at h
    have hc : ¬ c = sep := fun hc => h.1 hc.symm
    simp [splitChars, hc, ih h.2]

theorem splitChars_append (sep : Char) (a b : List Char) (h : sep ∉ a) :
    splitChars sep (a ++ sep :: b) = a :: splitChars sep b := by
  induction a with
  | nil => simp [splitChars]
  | cons c a ih =>
    simp only [List.mem_cons, not_or] at h
    have hc : ¬ c = sep := fun hc => h.1 hc.symm
    simp [splitChars, hc, ih h.2]

theorem takeWhile_ne_of_not_mem (sep : Char) (cs : List Char) (h : sep ∉ cs) :
    cs.takeWhile (fun c => c != sep) = cs := by
  rw [List.takeWhile_eq_self_iff]
  intro c hc
  simp only [bne_iff_ne, ne_eq]
  intro hcs
  exact h (hcs ▸ hc)

theorem toEntry_postcode1 {columns : List String} {e : Entry} {loc : String}
    (h : toEntry columns = .ok e) (hloc : columns[3]? = some loc) :
    e.postcode1 = String.mk (loc.data.takeWhile (fun c => c != ' ')) := by
  obtain ⟨c1, c2, c3, c4, c5, c6, i, time, p0, p1, -, -, -, -, h3, hp0, -, -, -, -, rfl⟩ :=
    toEntry_ok h
  rw [hloc] at h3
  cases h3
  simp only [stringsSplitSpace, List.getElem?_map, splitChars_head, Option.map_some',
    Option.some.injEq] at hp0
  exact hp0.symm

theorem toEntry_postcode2 {columns : List String} {e : Entry} {loc : String}
    (h : toEntry columns = .ok e) (hloc : columns[3]? = some loc) :
    some e.postcode2 =
      if (splitChars ' ' loc.data).length = 2 then
        ((splitChars ' ' loc.data)[1]?).map String.mk
      else some "" := by
  obtain ⟨c1, c2, c3, c4, c5, c6, i, time, p0, p1, -, -, -, -, h3, -, hp1, -, -, -, rfl⟩ :=
    toEntry_ok h
  rw [hloc] at h3
  cases h3
  simp only [stringsSplitSpace, List.length_map, List.getElem?_map] at hp1
  exact hp1.symm


/-- C8 as stated fails: for the location "A B C" the second space-delimited token is "B",
and `toEntry` leaves `postcode2` empty. -/
theorem C8_three_tokens_counterexample :
    stringsSplitSpace "A B C" = ["A", "B", "C"] ∧
      ∃ e, toEntry ["", "1", "2016-03-01 10:00", "A B C", "D", "N", "F"] = .ok e ∧
        e.postcode2 = "" ∧ e.postcode2 ≠ "B" :=
  ⟨by decide, ⟨_, rfl, by decide, by decide⟩⟩

/-- C8 amended: `toEntry` sets `postcode2` to the second space-delimited token when the
location has exactly two of them (it is `a`, one space, `b`, with no space in `a` or `b`),
and to the empty string in every other case: no space at all, or two spaces or more. -/
theorem C8_postcode2_of_exactly_two_tokens (columns : List String) (e : Entry)
    (loc : String) (h : toEntry columns = .ok e) (hloc : columns[3]? = some loc) :
    (∀ a b : List Char, ' ' ∉ a → ' ' ∉ b → loc.data = a ++ ' ' :: b →
        e.postcode2 = String.mk b) ∧
      (loc.data.count ' ' ≠ 1 → e.postcode2 = "") := by
  have h2 := toEntry_postcode2 h hloc
  constructor
  · intro a b ha hb hab
    rw [hab, splitChars_append _ _ _ ha, splitChars_of_not_mem _ _ hb] at h2
    simpa using h2
  · intro hcount
    rw [splitChars_length] at h2
    have hne : ¬ List.count ' ' loc.data + 1 = 2 := by omega
    simpa [hne] using h2

theorem C8_postcode2_of_exactly_two_tokens_witness :
    toEntry ["", "500000", "2016-03-01 10:00", "SW1 9AA", "D", "N", "F"] = .ok entryScenario1 ∧
      entryScenario1.postcode2 = "9AA" :=
  ⟨rfl,
    (C8_postcode2_of_exactly_two_tokens
      ["", "500000", "2016-03-01 10:00", "SW1 9AA", "D", "N", "F"] entryScenario1 "SW1 9AA"
      rfl rfl).1 "SW1".data "9AA".data (by decide) (by decide) rfl⟩

/-- C9 as stated fails: the location " SW1" is non-empty and its first whitespace-delimited
token is "SW1", and `toEntry` sets `postcode1` to the empty string. -/
theorem C9_leading_space_counterexample :
    (" SW1" : String) ≠ "" ∧
      ∃ e, toEntry ["", "1", "2016-03-01 10:00", " SW1", "D", "N", "F"] = .ok e ∧
        e.postcode1 = "" :=
  ⟨by decide, ⟨_, rfl, by decide⟩⟩

/-- C9 amended: `toEntry` sets `postcode1` to the part of the location before its first
space (all of it when it has no space); `postcode1` is non-empty exactly when the location
is non-empty and does not begin with a space. -/
theorem C9_postcode1_before_first_space (columns : List String) (e : Entry)
    (loc : String) (h : toEntry columns = .ok e) (hloc : columns[3]? = some loc) :
    e.postcode1 = String.mk (loc.data.takeWhile (fun c => c != ' ')) ∧
      (e.postcode1 ≠ "" ↔ loc ≠ "" ∧ loc.data.head? ≠ some ' ') := by
  have h1 := toEntry_postcode1 h hloc
  refine ⟨h1, ?_⟩
  rw [h1]
  obtain ⟨cs⟩ := loc
  cases cs with
  | nil => simp
  | cons c cs =>
    by_cases hc : c = ' '
    · subst hc
      simp [List.takeWhile_cons]
    · simp [List.takeWhile_cons, hc, String.ext_iff]

theorem C9_postcode1_before_first_space_witness :
    entryScenario1.postcode1 = String.mk ("SW1 9AA".data.takeWhile (fun c => c != ' ')) ∧
      (entryScenario1.postcode1 ≠ "" ↔
        ("SW1 9AA" : String) ≠ "" ∧ ("SW1 9AA" : String).data.head? ≠ some ' ') :=
  C9_postcode1_before_first_space
    ["", "500000", "2016-03-01 10:00", "SW1 9AA", "D", "N", "F"] entryScenario1 "SW1 9AA"
    rfl rfl

/-- C10: for a location without a space `toEntry` sets `postcode1` to the whole location,
so it is non-empty iff the location is; and a record whose location field is the empty
string gets an empty `postcode1` and does not pass the filter of `parseAndFilter`,
whatever its other fields. -/
theorem C10_location_without_space_or_empty (columns1 columns2 : List String)
    (e1 e2 : Entry) (loc : String)
    (h1 : toEntry columns1 = .ok e1) (hloc : columns1[3]? = some loc)
    (hspace : ' ' ∉ loc.data)
    (h2 : toEntry columns2 = .ok e2) (hempty : columns2[3]? = some "") :
    e1.postcode1 = loc ∧ (e1.postcode1 ≠ "" ↔ loc ≠ "") ∧
      e2.postcode1 = "" ∧ filterCondition e2 = false ∧
      ∀ rest entries, readLoop (columns2 :: rest) entries = readLoop rest entries := by
  have hp1 := toEntry_postcode1 h1 hloc
  rw [takeWhile_ne_of_not_mem _ _ hspace] at hp1
  have hp2 := toEntry_postcode1 h2 hempty
  have hp2e : e2.postcode1 = "" := by rw [hp2]; rfl
  have hdrop : filterCondition e2 = false := by
    rw [← Bool.not_eq_true, filterCondition_iff]
    intro hk
    exact hk.1 hp2e
  refine ⟨hp1, by rw [hp1], hp2e, hdrop, ?_⟩
  intro rest entries
  simp [readLoop, h2, hdrop]

theorem C10_location_without_space_or_empty_witness :
    (∃ e1, toEntry ["", "1", "2016-03-01 10:00", "SW1", "D", "N", "F"] = .ok e1 ∧
        e1.postcode1 = "SW1") ∧
      (∃ e2, toEntry ["", "1", "2016-03-01 10:00", "", "D", "N", "F"] = .ok e2 ∧
        e2.postcode1 = "" ∧ filterCondition e2 = false) ∧
      readLoop [["", "1", "2016-03-01 10:00", "", "D", "N", "F"]] [] = .ok [] :=
  have w := C10_location_without_space_or_empty
    ["", "1", "2016-03-01 10:00", "SW1", "D", "N", "F"]
    ["", "1", "2016-03-01 10:00", "", "D", "N", "F"]
    ⟨1, ⟨2016, 3, 1, 10, 0⟩, "SW1", "", Detached, Old, Freehold⟩
    ⟨1, ⟨2016, 3, 1, 10, 0⟩, "", "", Detached, Old, Freehold⟩
    "SW1" rfl rfl (by decide) rfl rfl
  ⟨⟨_, rfl, w.1⟩, ⟨_, rfl, w.2.2.1, w.2.2.2.1⟩, w.2.2.2.2 [] []⟩



/-! ## Theorems: the year boundary, the fields read, the price -/

/-- C11: an entry whose other conditions hold (a non-empty `postcode1` that is an element of
`LondonPostcodes`, duration `Freehold`) is kept by the filter iff its year is at least 2015:
kept at 2015, dropped at 2014. -/
theorem C11_year_boundary (e : Entry) (hne : e.postcode1 ≠ "")
    (_hmem : e.postcode1 ∈ LondonPostcodes) (hdur : e.duration = Freehold) :
    (filterCondition e = true ↔ 2015 ≤ e.date.Year) ∧
      (e.date.Year = 2015 → filterCondition e = true) ∧
      (e.date.Year = 2014 → filterCondition e = false) := by
  have hiff : filterCondition e = true ↔ 2015 ≤ e.date.Year := by
    rw [filterCondition_iff]
    exact ⟨fun h => h.2.1, fun h => ⟨hne, h, hdur⟩⟩
  refine ⟨hiff, fun h => hiff.mpr (by omega), fun h => ?_⟩
  rw [← Bool.not_eq_true, hiff]
  omega

theorem C11_year_boundary_witness :
    filterCondition { entrySW1 with date := ⟨2015, 1, 1, 0, 0⟩ } = true ∧
      filterCondition { entrySW1 with date := ⟨2014, 12, 31, 23, 59⟩ } = false :=
  ⟨(C11_year_boundary { entrySW1 with date := ⟨2015, 1, 1, 0, 0⟩ }
      (by decide) (by decide) (by decide)).2.1 rfl,
    (C11_year_boundary { entrySW1 with date := ⟨2014, 12, 31, 23, 59⟩ }
      (by decide) (by decide) (by decide)).2.2 rfl⟩

theorem getElem?_of_lt_length {l : List String} {i : Nat} (h : i < l.length) :
    ∃ x, l[i]? = some x :=
  ⟨l[i], List.getElem?_eq_getElem h⟩

theorem stringsSplitSpace_index (loc : String) :
    (∃ p0, (stringsSplitSpace loc)[0]? = some p0) ∧
      ∃ p1, (if (stringsSplitSpace loc).length = 2 then (stringsSplitSpace loc)[1]?
        else some "") = some p1 := by
  constructor
  · exact ⟨String.mk (loc.data.takeWhile (fun c => c != ' ')),
      by simp [stringsSplitSpace, List.getElem?_map, splitChars_head]⟩
  · by_cases h : (stringsSplitSpace loc).length = 2
    · simp only [h, if_true]
      exact getElem?_of_lt_length (by omega)
    · exact ⟨"", by simp [h]⟩

theorem toEntry_no_index_panic (columns : List String) (h : 7 ≤ columns.length) :
    toEntry columns ≠ .error .indexOutOfRange := by
  obtain ⟨c1, h1⟩ := getElem?_of_lt_length (l := columns) (i := 1) (by omega)
  obtain ⟨c2, h2⟩ := getElem?_of_lt_length (l := columns) (i := 2) (by omega)
  obtain ⟨c3, h3⟩ := getElem?_of_lt_length (l := columns) (i := 3) (by omega)
  obtain ⟨c4, h4⟩ := getElem?_of_lt_length (l := columns) (i := 4) (by omega)
  obtain ⟨c5, h5⟩ := getElem?_of_lt_length (l := columns) (i := 5) (by omega)
  obtain ⟨c6, h6⟩ := getElem?_of_lt_length (l := columns) (i := 6) (by omega)
  obtain ⟨⟨p0, hp0⟩, ⟨p1, hp1⟩⟩ := stringsSplitSpace_index c3
  unfold toEntry
  simp only [h1, h2, h3, h4, h5, h6, hp0, hp1]
  cases strconvAtoi c1 with
  | none => simp
  | some i =>
    cases timeParse c2 with
    | none => simp
    | some t => simp

/-- C13: two records of at least 7 fields that agree at the indices 1 to 6 get the same
result of `toEntry`, the same entry or the same fatal error, whatever they have at index 0,
from index 7 on, and however long they are; and on a record of at least 7 fields no index
expression of `toEntry` is out of range. -/
theorem C13_toEntry_reads_fields_one_to_six (cols1 cols2 : List String)
    (h1 : 7 ≤ cols1.length) (h2 : 7 ≤ cols2.length)
    (hagree : ∀ i : Nat, 1 ≤ i → i ≤ 6 → cols1[i]? = cols2[i]?) :
    toEntry cols1 = toEntry cols2 ∧ toEntry cols1 ≠ .error .indexOutOfRange ∧
      toEntry cols2 ≠ .error .indexOutOfRange := by
  refine ⟨?_, toEntry_no_index_panic cols1 h1, toEntry_no_index_panic cols2 h2⟩
  unfold toEntry
  rw [hagree 1 (by omega) (by omega), hagree 2 (by omega) (by omega),
    hagree 3 (by omega) (by omega), hagree 4 (by omega) (by omega),
    hagree 5 (by omega) (by omega), hagree 6 (by omega) (by omega)]

theorem C13_toEntry_reads_fields_one_to_six_witness :
    toEntry ["id-1", "500000", "2016-03-01 10:00", "SW1 9AA", "D", "N", "F"] =
        toEntry ["id-2", "500000", "2016-03-01 10:00", "SW1 9AA", "D", "N", "F", "A", "", "B"] ∧
      toEntry ["id-1", "500000", "2016-03-01 10:00", "SW1 9AA", "D", "N", "F"] ≠
        .error .indexOutOfRange ∧
      toEntry ["id-2", "500000", "2016-03-01 10:00", "SW1 9AA", "D", "N", "F", "A", "", "B"] ≠
        .error .indexOutOfRange :=
  C13_toEntry_reads_fields_one_to_six
    ["id-1", "500000", "2016-03-01 10:00", "SW1 9AA", "D", "N", "F"]
    ["id-2", "500000", "2016-03-01 10:00", "SW1 9AA", "D", "N", "F", "A", "", "B"]
    (by decide) (by decide)
    (fun i h1 h6 => by
      have hi : i = 1 ∨ i = 2 ∨ i = 3 ∨ i = 4 ∨ i = 5 ∨ i = 6 := by omega
      rcases hi with h | h | h | h | h | h <;> subst h <;> rfl)


theorem atoiBody_sign (cs : List Char)
    (h : (match cs with
        | '-' :: r => (true, r)
        | '+' :: r => (false, r)
        | r => (false, r)).1 = true) : cs.head? = some '-' := by
  split at h
  · simp
  · simp at h
  · simp at h

theorem strconvAtoi_some {s : String} {v : Int} (h : strconvAtoi s = some v) :
    ∃ (neg : Bool) (n : Nat), (neg = true → s.data.head? = some '-') ∧
      v = (if neg then - (n : Int) else (n : Int)) ∧
      - (9223372036854775808 : Int) ≤ v ∧ v ≤ 9223372036854775807 := by
  unfold strconvAtoi at h
  simp only at h
  split at h
  · cases h
  · split at h
    · cases h
    · rename_i n _
      rw [Option.ite_none_right_eq_some] at h
      obtain ⟨hr, hv⟩ := h
      refine ⟨_, n, atoiBody_sign s.data, ?_, ?_⟩
      · simp only [Option.some.injEq] at hv
        exact hv.symm
      · simp only [Option.some.injEq] at hv
        exact hv ▸ hr

theorem strconvAtoi_range {s : String} {v : Int} (h : strconvAtoi s = some v) :
    - (9223372036854775808 : Int) ≤ v ∧ v ≤ 9223372036854775807 := by
  obtain ⟨neg, n, -, -, hr⟩ := strconvAtoi_some h
  exact hr

theorem strconvAtoi_nonneg {s : String} {v : Int} (h : strconvAtoi s = some v)
    (hsign : s.data.head? ≠ some '-') : 0 ≤ v := by
  obtain ⟨neg, n, hneg, hv, -⟩ := strconvAtoi_some h
  cases neg with
  | true => exact absurd (hneg rfl) hsign
  | false =>
    rw [hv]
    exact Int.ofNat_zero_le n

/-- C14 as stated fails: the price field "-5" classifies without a fatal error and the
price of the entry is -5. -/
theorem C14_negative_price_counterexample :
    ∃ e, toEntry ["", "-5", "2016-03-01 10:00", "SW1 9AA", "D", "N", "F"] = .ok e ∧
      e.price = -5 ∧ e.price < 0 :=
  ⟨_, rfl, by decide, by decide⟩

/-- C14 amended: when `toEntry` classifies a record without a fatal error, the price of the
entry is the value `strconv.Atoi` reads from the price field, an integer within the range of
`int`; it is non-negative whenever the field does not begin with a minus sign. -/
theorem C14_price_is_atoi_value (columns : List String) (e : Entry) (field : String)
    (h : toEntry columns = .ok e) (hfield : columns[1]? = some field) :
    strconvAtoi field = some e.price ∧
      - (9223372036854775808 : Int) ≤ e.price ∧ e.price ≤ 9223372036854775807 ∧
      (field.data.head? ≠ some '-' → 0 ≤ e.price) := by
  obtain ⟨c1, c2, c3, c4, c5, c6, i, time, p0, p1, h1, hi, -, -, -, -, -, -, -, -, rfl⟩ :=
    toEntry_ok h
  rw [hfield] at h1
  cases h1
  exact ⟨hi, (strconvAtoi_range hi).1, (strconvAtoi_range hi).2,
    fun hsign => strconvAtoi_nonneg hi hsign⟩

theorem C14_price_is_atoi_value_witness :
    strconvAtoi "500000" = some entryScenario1.price ∧ 0 ≤ entryScenario1.price :=
  have w := C14_price_is_atoi_value
    ["", "500000", "2016-03-01 10:00", "SW1 9AA", "D", "N", "F"] entryScenario1 "500000"
    rfl rfl
  ⟨w.1, w.2.2.2 (by decide)⟩


/-! ## Theorems: text rendering of the enumerations -/

theorem propertyType_string_valid (t : PropertyType) (h : t.val.val < 5) :
    t.String = .ok (propertyTypeNames.getD t.val.val "") ∧
      propertyTypeNames.getD t.val.val "" ≠ "" := by
  obtain ⟨⟨n, hn⟩⟩ := t
  simp only at h
  interval_cases n <;> exact ⟨rfl, by simp [propertyTypeNames]⟩

theorem propertyAge_string_valid (t : PropertyAge) (h : t.val.val < 2) :
    t.String = .ok (propertyAgeNames.getD t.val.val "") ∧
      propertyAgeNames.getD t.val.val "" ≠ "" := by
  obtain ⟨⟨n, hn⟩⟩ := t
  simp only at h
  interval_cases n <;> exact ⟨rfl, by simp [propertyAgeNames]⟩

theorem propertyType_string_outside (t : PropertyType) (h : 5 ≤ t.val.val) :
    t.String = .ok "" := by
  have hlen : propertyTypeNames.length = 5 := rfl
  simp [PropertyType.String, hlen, h]

theorem propertyAge_string_outside (t : PropertyAge) (h : 2 ≤ t.val.val) :
    t.String = .ok "" := by
  have hlen : propertyAgeNames.length = 2 := rfl
  simp [PropertyAge.String, hlen, h]

theorem propertyType_string_injective (t u : PropertyType) (ht : t.val.val < 5)
    (hu : u.val.val < 5) (h : t.String = u.String) : t = u := by
  obtain ⟨⟨n, hn⟩⟩ := t
  obtain ⟨⟨m, hm⟩⟩ := u
  simp only at ht hu
  interval_cases n <;> interval_cases m <;>
    first
      | rfl
      | (exfalso; simp [PropertyType.String, propertyTypeNames] at h)

theorem propertyAge_string_injective (t u : PropertyAge) (ht : t.val.val < 2)
    (hu : u.val.val < 2) (h : t.String = u.String) : t = u := by
  obtain ⟨⟨n, hn⟩⟩ := t
  obtain ⟨⟨m, hm⟩⟩ := u
  simp only at ht hu
  interval_cases n <;> interval_cases m <;>
    first
      | rfl
      | (exfalso; simp [PropertyAge.String, propertyAgeNames] at h)

/-- C18: `String` and `MarshalText` give the five property types and the two property ages
their names; different valid values get different names, none of them empty; a byte outside
the defined range gets the empty string; `String` never indexes out of range and
`MarshalText` never returns an error. -/
theorem C18_enum_names_collision_free (t u : PropertyType) (a b : PropertyAge) :
    (PropertyType.String Detached = .ok "Detached" ∧
      PropertyType.String SemiDetached = .ok "SemiDetached" ∧
      PropertyType.String Terraced = .ok "Terraced" ∧
      PropertyType.String Flat = .ok "Flat" ∧
      PropertyType.String Other = .ok "Other" ∧
      PropertyAge.String New = .ok "New" ∧
      PropertyAge.String Old = .ok "Old") ∧
    (PropertyType.MarshalText Detached = .ok ("Detached", none) ∧
      PropertyType.MarshalText SemiDetached = .ok ("SemiDetached", none) ∧
      PropertyType.MarshalText Terraced = .ok ("Terraced", none) ∧
      PropertyType.MarshalText Flat = .ok ("Flat", none) ∧
      PropertyType.MarshalText Other = .ok ("Other", none)) ∧
    (t.val.val < 5 → u.val.val < 5 → t.String = u.String → t = u) ∧
    (a.val.val < 2 → b.val.val < 2 → a.String = b.String → a = b) ∧
    (t.val.val < 5 → t.String ≠ .ok "") ∧
    (a.val.val < 2 → a.String ≠ .ok "") ∧
    (5 ≤ t.val.val → t.String = .ok "") ∧
    (2 ≤ a.val.val → a.String = .ok "") ∧
    (∃ text, t.String = .ok text ∧ t.MarshalText = .ok (text, none)) ∧
    (∃ text, a.String = .ok text ∧ a.MarshalText = .ok (text, none)) := by
  have htotal : ∃ text, t.String = .ok text := by
    by_cases h : t.val.val < 5
    · exact ⟨_, (propertyType_string_valid t h).1⟩
    · exact ⟨_, propertyType_string_outside t (by omega)⟩
  have atotal : ∃ text, a.String = .ok text := by
    by_cases h : a.val.val < 2
    · exact ⟨_, (propertyAge_string_valid a h).1⟩
    · exact ⟨_, propertyAge_string_outside a (by omega)⟩
  refine ⟨⟨rfl, rfl, rfl, rfl, rfl, rfl, rfl⟩, ⟨rfl, rfl, rfl, rfl, rfl⟩,
    propertyType_string_injective t u, propertyAge_string_injective a b,
    ?_, ?_, propertyType_string_outside t, propertyAge_string_outside a, ?_, ?_⟩
  · intro h hs
    have hv := propertyType_string_valid t h
    rw [hv.1] at hs
    exact hv.2 (Except.ok.inj hs)
  · intro h hs
    have hv := propertyAge_string_valid a h
    rw [hv.1] at hs
    exact hv.2 (Except.ok.inj hs)
  · obtain ⟨text, ht⟩ := htotal
    exact ⟨text, ht, by simp [PropertyType.MarshalText, ht]⟩
  · obtain ⟨text, ha⟩ := atotal
    exact ⟨text, ha, by simp [PropertyAge.MarshalText, ha]⟩

theorem C18_enum_names_collision_free_witness :
    PropertyType.String Flat ≠ PropertyType.String Other ∧
      PropertyType.String ⟨200⟩ = .ok "" ∧
      PropertyAge.String ⟨2⟩ = .ok "" :=
  ⟨fun h => absurd ((C18_enum_names_collision_free Flat Other New Old).2.2.1
      (by decide) (by decide) h) (by decide),
    (C18_enum_names_collision_free ⟨200⟩ Other ⟨2⟩ Old).2.2.2.2.2.2.1 (by decide),
    (C18_enum_names_collision_free ⟨200⟩ Other ⟨2⟩ Old).2.2.2.2.2.2.2.1 (by decide)⟩


/-! ## Theorems: the order of the location list -/

/-- C12, where the code departs from it: `LondonPostcodes` is not in ascending order; at
the indices 40 and 41 "WC2R" is followed by the smaller "E1". A binary search therefore
misses elements of the list: for "E1" `sort.SearchStrings` returns 0, where "EC1A" is.
The list has no duplicates. -/
theorem C12_list_not_ascending :
    strictlyAscending LondonPostcodes = false ∧
      LondonPostcodes[40]? = some "WC2R" ∧ LondonPostcodes[41]? = some "E1" ∧
      stringLess "E1".data "WC2R".data = true ∧
      sortSearchStrings LondonPostcodes "E1" = 0 ∧
      binarySearchMember LondonPostcodes "E1" = false ∧
      linearScan LondonPostcodes "E1" = true ∧
      LondonPostcodes.Nodup := by
  refine ⟨?_, ?_, ?_, by decide, ?_, ?_, by decide, ?_⟩
  · set_option maxRecDepth 20000 in decide
  · set_option maxRecDepth 20000 in rfl
  · set_option maxRecDepth 20000 in rfl
  · set_option maxRecDepth 20000 in rfl
  · set_option maxRecDepth 20000 in rfl
  · set_option maxRecDepth 100000 in decide


/-! ## Theorems: what `parseAndFilter` returns -/

theorem readLoop_eq_classifyAll (records : List (List String)) :
    ∀ acc : List Entry, readLoop records acc =
      match classifyAll records with
      | .error err => .error err
      | .ok classified => .ok (acc ++ classified.filter filterCondition) := by
  induction records with
  | nil => intro acc; simp [readLoop, classifyAll]
  | cons columns rest ih =>
    intro acc
    simp only [readLoop, classifyAll]
    cases hc : toEntry columns with
    | error err => rfl
    | ok entry =>
      simp only
      by_cases hf : filterCondition entry = true
      · simp only [hf, if_true]
        rw [ih]
        cases classifyAll rest with
        | error err => rfl
        | ok entries => simp [List.filter_cons, hf]
      · simp only [Bool.not_eq_true] at hf
        simp only [hf, Bool.false_eq_true, if_false]
        rw [ih]
        cases classifyAll rest with
        | error err => rfl
        | ok entries => simp [List.filter_cons, hf]

theorem classifyAll_ok_of_all (records : List (List String))
    (h : ∀ r ∈ records, ∃ e, toEntry r = .ok e) :
    ∃ classified, classifyAll records = .ok classified := by
  induction records with
  | nil => exact ⟨[], rfl⟩
  | cons columns rest ih =>
    obtain ⟨e, he⟩ := h columns (List.mem_cons_self _ _)
    obtain ⟨es, hes⟩ := ih (fun r hr => h r (List.mem_cons_of_mem _ hr))
    exact ⟨e :: es, by simp [classifyAll, he, hes]⟩

theorem parseAndFilter_error (sortSlice : List Entry → List Entry)
    (records : List (List String)) (err : Fatal) (hc : classifyAll records = .error err) :
    parseAndFilter sortSlice records = .error err := by
  simp [parseAndFilter, readLoop_eq_classifyAll, hc]

/-- C17: when every record classifies, `parseAndFilter` returns a slice that is in
non-decreasing order of year and is a rearrangement of the classified records that pass the
filter, with nothing added, removed or altered; `sort.Slice` is any function that keeps
its promise for the `less` of main.go 54-56. -/
theorem C17_result_sorted_permutation (sortSlice : List Entry → List Entry)
    (hs : SortsByYear sortSlice) (records : List (List String)) (classified : List Entry)
    (hc : classifyAll records = .ok classified) :
    ∃ entries, parseAndFilter sortSlice records = .ok entries ∧
      entries.Pairwise (fun a b => a.date.Year ≤ b.date.Year) ∧
      entries.Perm (classified.filter filterCondition) := by
  refine ⟨sortSlice (classified.filter filterCondition), ?_, ?_, (hs _).1⟩
  · simp [parseAndFilter, readLoop_eq_classifyAll, hc]
  · refine (hs _).2.imp ?_
    intro a b hab
    simp only [yearLess, decide_eq_false_iff_not] at hab
    omega

theorem C17_result_sorted_permutation_witness :
    ∃ entries, parseAndFilter insertionSortByYear
        [["", "200000", "2017-05-05 10:00", "SW2 9ZZ", "F", "Y", "F"],
         ["", "300000", "2014-01-01 10:00", "SW1 9AB", "D", "N", "F"],
         ["", "500000", "2016-03-01 10:00", "SW1 9AA", "D", "N", "F"]] = .ok entries ∧
      entries.Pairwise (fun a b => a.date.Year ≤ b.date.Year) ∧
      entries.Perm
        ([⟨200000, ⟨2017, 5, 5, 10, 0⟩, "SW2", "9ZZ", Flat, New, Freehold⟩,
          ⟨300000, ⟨2014, 1, 1, 10, 0⟩, "SW1", "9AB", Detached, Old, Freehold⟩,
          entryScenario1].filter filterCondition) :=
  C17_result_sorted_permutation insertionSortByYear insertionSortByYear_sortsByYear _ _ rfl


/-! ## Theorems: counting the prices of the aggregate -/

theorem sum_map_flatMap {α β : Type} (l : List α) (f : α → List β) (g : β → Nat) :
    ((l.flatMap f).map g).sum = (l.map (fun x => ((f x).map g).sum)).sum := by
  induction l with
  | nil => rfl
  | cons x l ih => simp [List.flatMap_cons, ih]

theorem sum_set {K V : Type} [DecidableEq K] (w : V → Nat) (m : GoMap K V) (k : K) (v : V) :
    ((m.set k v).map (fun kv => w kv.2)).sum + ((m.get? k).map w).getD 0 =
      (m.map (fun kv => w kv.2)).sum + w v := by
  induction m with
  | nil => simp [GoMap.set, GoMap.get?]
  | cons kv m ih =>
    obtain ⟨k1, v1⟩ := kv
    by_cases h : k1 = k
    · simp [GoMap.set, GoMap.get?, h]
      omega
    · simp [GoMap.set, GoMap.get?, h]
      omega

theorem sum_set_getD {K V : Type} [DecidableEq K] (w : List V → Nat) (hw : w [] = 0)
    (m : GoMap K (List V)) (k : K) (v : List V) :
    ((m.set k v).map (fun kv => w kv.2)).sum + w ((m.get? k).getD []) =
      (m.map (fun kv => w kv.2)).sum + w v := by
  have h := sum_set w m k v
  cases hg : m.get? k with
  | none => simpa [hg, hw] using h
  | some x => simpa [hg] using h

/-- The number of prices below the age level, the type level and the year level. -/
theorem totalPrices_eq (m : PostcodeYearTypeAgePricesMap) :
    totalPrices m =
      (m.map (fun kv => (kv.2.map (fun kv => (kv.2.map (fun kv =>
        (kv.2.map (fun kv => kv.2.length)).sum)).sum)).sum)).sum := by
  simp only [totalPrices, leaves, sum_map_flatMap, List.map_map]
  rfl

theorem sum_set_succ {K V : Type} [DecidableEq K] (w : List V → Nat) (hw : w [] = 0)
    (m : GoMap K (List V)) (k : K) (v : List V)
    (hv : w v = w ((m.get? k).getD []) + 1) :
    ((m.set k v).map (fun kv => w kv.2)).sum = (m.map (fun kv => w kv.2)).sum + 1 := by
  have h := sum_set_getD w hw m k v
  omega

theorem totalPrices_groupStep (m : PostcodeYearTypeAgePricesMap) (e : Entry) :
    totalPrices (groupStep m e) = totalPrices m + 1 := by
  rw [totalPrices_eq, totalPrices_eq]
  simp only [groupStep]
  refine sum_set_succ (K := String)
    (fun ym : GoMap Int (GoMap PropertyType (GoMap PropertyAge (List Int))) =>
      (ym.map (fun kv => (kv.2.map (fun kv =>
        (kv.2.map (fun kv => kv.2.length)).sum)).sum)).sum) rfl _ _ _ ?_
  refine sum_set_succ (K := Int)
    (fun tm : GoMap PropertyType (GoMap PropertyAge (List Int)) =>
      (tm.map (fun kv => (kv.2.map (fun kv => kv.2.length)).sum)).sum) rfl _ _ _ ?_
  refine sum_set_succ (K := PropertyType)
    (fun am : GoMap PropertyAge (List Int) => (am.map (fun kv => kv.2.length)).sum)
    rfl _ _ _ ?_
  refine sum_set_succ (K := PropertyAge) (fun l : List Int => l.length) rfl _ _ _ ?_
  simp

theorem totalPrices_foldl (es : List Entry) (m : PostcodeYearTypeAgePricesMap) :
    totalPrices (es.foldl groupStep m) = totalPrices m + es.length := by
  induction es generalizing m with
  | nil => rfl
  | cons e es ih =>
    rw [List.foldl_cons, ih, totalPrices_groupStep, List.length_cons]
    omega

theorem count_pricesWithKey (es : List Entry) (k : KeyPath) (p : Int) :
    (pricesWithKey es k).count p = countWithKeyAndPrice es k p := by
  induction es with
  | nil => rfl
  | cons e es ih =>
    unfold pricesWithKey countWithKeyAndPrice at ih ⊢
    by_cases hk : keyOf e = k
    · by_cases hp : e.price = p
      · simp [List.filter_cons, hk, hp, ih]
      · simp [List.filter_cons, hk, hp, ih, List.count_cons]
    · simp [List.filter_cons, hk, ih]

/-- C15: the grouping loop neither drops nor deduplicates prices: the number of prices over
all leaves of the aggregate is the number of input entries, and in the leaf of every key
path every price occurs as many times as there are input entries with that key path and
that price. -/
theorem C15_no_price_dropped_or_deduplicated (entries : List Entry) (k : KeyPath) (p : Int) :
    totalPrices (groupEntries entries) = entries.length ∧
      ((leafAt (groupEntries entries) k).getD []).count p =
        countWithKeyAndPrice entries k p := by
  constructor
  · unfold groupEntries
    rw [totalPrices_foldl]
    simp [totalPrices, leaves]
  · rw [← count_pricesWithKey, leafAt_groupEntries]
    by_cases h : pricesWithKey entries k = [] <;> simp [h]

theorem C15_no_price_dropped_or_deduplicated_witness :
    totalPrices (groupEntries [entrySW1, entrySW1, entryZZ99]) = 3 ∧
      ((leafAt (groupEntries [entrySW1, entrySW1, entryZZ99]) (keyOf entrySW1)).getD []).count
        200000 = 2 :=
  have w := C15_no_price_dropped_or_deduplicated [entrySW1, entrySW1, entryZZ99]
    (keyOf entrySW1) 200000
  ⟨w.1, w.2.trans (by decide)⟩


/-! ## Theorems: the key paths of the aggregate -/

namespace GoMap

variable {K V : Type} [DecidableEq K]

theorem mem_keys_set (m : GoMap K V) (k k2 : K) (v : V) :
    k2 ∈ (m.set k v).keys ↔ k2 ∈ m.keys ∨ k2 = k := by
  induction m with
  | nil => simp [set, keys]
  | cons kv m ih =>
    obtain ⟨k1, v1⟩ := kv
    by_cases h : k1 = k
    · subst h
      simp only [set, if_true, keys, List.map_cons, List.mem_cons]
      constructor
      · intro hk; exact Or.inl hk
      · intro hk
        rcases hk with hk | hk
        · exact hk
        · exact Or.inl hk
    · simp only [keys] at ih
      simp only [set, h, if_false, keys, List.map_cons, List.mem_cons, ih]
      constructor
      · intro hk
        rcases hk with hk | hk | hk
        · exact Or.inl (Or.inl hk)
        · exact Or.inl (Or.inr hk)
        · exact Or.inr hk
      · intro hk
        rcases hk with (hk | hk) | hk
        · exact Or.inl hk
        · exact Or.inr (Or.inl hk)
        · exact Or.inr (Or.inr hk)

theorem nodup_keys_set (m : GoMap K V) (k : K) (v : V) (h : m.keys.Nodup) :
    (m.set k v).keys.Nodup := by
  induction m with
  | nil => simp [set, keys]
  | cons kv m ih =>
    obtain ⟨k1, v1⟩ := kv
    simp only [keys, List.map_cons, List.nodup_cons] at h
    by_cases hk : k1 = k
    · simp only [set, hk, if_true, keys, List.map_cons, List.nodup_cons]
      exact ⟨hk ▸ h.1, h.2⟩
    · simp only [set, hk, if_false]
      show (k1 :: (set m k v).keys).Nodup
      rw [List.nodup_cons]
      refine ⟨?_, ih h.2⟩
      rw [mem_keys_set]
      intro hmem
      rcases hmem with hmem | hmem
      · exact h.1 hmem
      · exact hk hmem

theorem get?_of_mem {m : GoMap K V} {k : K} {v : V} (hnd : m.keys.Nodup)
    (h : (k, v) ∈ m) : m.get? k = some v := by
  induction m with
  | nil => simp at h
  | cons kv m ih =>
    obtain ⟨k1, v1⟩ := kv
    simp only [keys, List.map_cons, List.nodup_cons] at hnd
    rw [List.mem_cons] at h
    rcases h with h | h
    · simp only [Prod.mk.injEq] at h
      simp [get?, h.1, h.2]
    · have hk : k1 ≠ k := by
        intro hk
        apply hnd.1
        rw [hk]
        exact List.mem_map_of_mem Prod.fst h
      simp only [get?, hk, if_false]
      exact ih hnd.2 h

end GoMap

theorem nodupKeys_groupStep (m : PostcodeYearTypeAgePricesMap) (e : Entry)
    (h : NodupKeys m) : NodupKeys (groupStep m e) := by
  have hnil : ∀ {K V : Type}, (GoMap.keys ([] : GoMap K V)).Nodup := by
    intro K V; simp [GoMap.keys]
  have hym : (GoMap.keys ((GoMap.get? m e.postcode1).getD [])).Nodup ∧
      ∀ y tm, (y, tm) ∈ (GoMap.get? m e.postcode1).getD [] → (GoMap.keys tm).Nodup ∧
        ∀ t am, (t, am) ∈ tm → (GoMap.keys am).Nodup := by
    cases hg : GoMap.get? m e.postcode1 with
    | none => exact ⟨hnil, by simp⟩
    | some ym => exact h.2 _ ym (GoMap.mem_of_get? hg)
  have htm : (GoMap.keys
        ((GoMap.get? ((GoMap.get? m e.postcode1).getD []) e.date.Year).getD [])).Nodup ∧
      ∀ t am, (t, am) ∈ (GoMap.get? ((GoMap.get? m e.postcode1).getD []) e.date.Year).getD [] →
        (GoMap.keys am).Nodup := by
    cases hg : GoMap.get? ((GoMap.get? m e.postcode1).getD []) e.date.Year with
    | none => exact ⟨hnil, by simp⟩
    | some tm => exact hym.2 _ tm (GoMap.mem_of_get? hg)
  have ham : (GoMap.keys ((GoMap.get?
      ((GoMap.get? ((GoMap.get? m e.postcode1).getD []) e.date.Year).getD [])
      e.propertyType).getD [])).Nodup := by
    cases hg : GoMap.get?
      ((GoMap.get? ((GoMap.get? m e.postcode1).getD []) e.date.Year).getD [])
      e.propertyType with
    | none => exact hnil
    | some am => exact htm.2 _ am (GoMap.mem_of_get? hg)
  refine ⟨GoMap.nodup_keys_set _ _ _ h.1, ?_⟩
  intro p ym hp
  rcases GoMap.mem_set hp with hp | hp
  · exact h.2 p ym hp
  · simp only [Prod.mk.injEq] at hp
    obtain ⟨-, rfl⟩ := hp
    refine ⟨GoMap.nodup_keys_set _ _ _ hym.1, ?_⟩
    intro y tm hy
    rcases GoMap.mem_set hy with hy | hy
    · exact hym.2 y tm hy
    · simp only [Prod.mk.injEq] at hy
      obtain ⟨-, rfl⟩ := hy
      refine ⟨GoMap.nodup_keys_set _ _ _ htm.1, ?_⟩
      intro t am ht
      rcases GoMap.mem_set ht with ht | ht
      · exact htm.2 t am ht
      · simp only [Prod.mk.injEq] at ht
        obtain ⟨-, rfl⟩ := ht
        exact GoMap.nodup_keys_set _ _ _ ham

theorem nodupKeys_foldl (es : List Entry) (m : PostcodeYearTypeAgePricesMap)
    (h : NodupKeys m) : NodupKeys (es.foldl groupStep m) := by
  induction es generalizing m with
  | nil => simpa using h
  | cons e es ih =>
    rw [List.foldl_cons]
    exact ih _ (nodupKeys_groupStep m e h)

theorem nodupKeys_groupEntries (es : List Entry) : NodupKeys (groupEntries es) := by
  apply nodupKeys_foldl
  refine ⟨by simp [GoMap.keys], ?_⟩
  intro p ym hp
  simp at hp

theorem mem_leaves (m : PostcodeYearTypeAgePricesMap) (p : String) (y : Int)
    (t : PropertyType) (a : PropertyAge) (l : List Int) :
    ((p, y, t, a), l) ∈ leaves m ↔
      ∃ ym, (p, ym) ∈ m ∧ ∃ tm, (y, tm) ∈ ym ∧ ∃ am, (t, am) ∈ tm ∧ (a, l) ∈ am := by
  simp only [leaves, List.mem_flatMap, List.mem_map, Prod.exists, Prod.mk.injEq]
  constructor
  · rintro ⟨p1, ym, hp, y1, tm, hy, t1, am, ht, a1, l1, ha, ⟨rfl, rfl, rfl, rfl⟩, rfl⟩
    exact ⟨ym, hp, tm, hy, am, ht, ha⟩
  · rintro ⟨ym, hp, tm, hy, am, ht, ha⟩
    exact ⟨p, ym, hp, y, tm, hy, t, am, ht, a, l, ha, ⟨rfl, rfl, rfl, rfl⟩, rfl⟩

theorem mem_leaves_iff_leafAt (m : PostcodeYearTypeAgePricesMap) (h : NodupKeys m)
    (k : KeyPath) (l : List Int) : (k, l) ∈ leaves m ↔ leafAt m k = some l := by
  obtain ⟨p, y, t, a⟩ := k
  rw [mem_leaves]
  constructor
  · rintro ⟨ym, hp, tm, hy, am, ht, ha⟩
    have h1 := h.2 p ym hp
    have h2 := h1.2 y tm hy
    have h3 := h2.2 t am ht
    simp only [leafAt, GoMap.get?_of_mem h.1 hp, GoMap.get?_of_mem h1.1 hy,
      GoMap.get?_of_mem h2.1 ht, GoMap.get?_of_mem h3 ha]
  · intro hl
    simp only [leafAt] at hl
    cases h1 : GoMap.get? m p with
    | none => simp [h1] at hl
    | some ym =>
      simp only [h1] at hl
      cases h2 : GoMap.get? ym y with
      | none => simp [h2] at hl
      | some tm =>
        simp only [h2] at hl
        cases h3 : GoMap.get? tm t with
        | none => simp [h3] at hl
        | some am =>
          simp only [h3] at hl
          exact ⟨ym, GoMap.mem_of_get? h1, tm, GoMap.mem_of_get? h2, am,
            GoMap.mem_of_get? h3, GoMap.mem_of_get? hl⟩

theorem mem_keyPaths_groupEntries (es : List Entry) (k : KeyPath) :
    k ∈ keyPaths (groupEntries es) ↔ ∃ e ∈ es, keyOf e = k := by
  simp only [keyPaths, List.mem_map, Prod.exists, exists_and_right, exists_eq_right]
  constructor
  · rintro ⟨l, hl⟩
    rw [mem_leaves_iff_leafAt _ (nodupKeys_groupEntries es), leafAt_groupEntries] at hl
    by_cases hnil : pricesWithKey es k = []
    · simp [hnil] at hl
    · rwa [pricesWithKey_eq_nil_iff, not_not] at hnil
  · intro hex
    refine ⟨pricesWithKey es k, ?_⟩
    rw [mem_leaves_iff_leafAt _ (nodupKeys_groupEntries es), leafAt_groupEntries]
    have hnil : ¬ pricesWithKey es k = [] := by
      rw [pricesWithKey_eq_nil_iff, not_not]; exact hex
    simp [hnil]

/-- C16: the key structure of the aggregate does not depend on the order of the input: for
a rearrangement of the entries the grouping loop gives the same key paths, and the leaf at
each key path is a rearrangement of the leaf it has for the other order. -/
theorem C16_key_paths_independent_of_order (entries1 entries2 : List Entry)
    (hperm : entries1.Perm entries2) (k : KeyPath) :
    (k ∈ keyPaths (groupEntries entries1) ↔ k ∈ keyPaths (groupEntries entries2)) ∧
      (leafAt (groupEntries entries1) k).isSome = (leafAt (groupEntries entries2) k).isSome ∧
      ((leafAt (groupEntries entries1) k).getD []).Perm
        ((leafAt (groupEntries entries2) k).getD []) := by
  have hp := pricesWithKey_perm hperm k
  have hnil : pricesWithKey entries1 k = [] ↔ pricesWithKey entries2 k = [] := by
    constructor
    · intro h; rw [h] at hp; exact List.perm_nil.mp hp.symm
    · intro h; rw [h] at hp; exact List.perm_nil.mp hp
  refine ⟨?_, ?_, ?_⟩
  · rw [mem_keyPaths_groupEntries, mem_keyPaths_groupEntries]
    constructor
    · rintro ⟨e, he, hk⟩; exact ⟨e, hperm.mem_iff.mp he, hk⟩
    · rintro ⟨e, he, hk⟩; exact ⟨e, hperm.mem_iff.mpr he, hk⟩
  · rw [leafAt_groupEntries, leafAt_groupEntries]
    by_cases h1 : pricesWithKey entries1 k = []
    · simp [h1, hnil.mp h1]
    · simp [h1, mt hnil.mpr h1]
  · rw [leafAt_groupEntries, leafAt_groupEntries]
    by_cases h1 : pricesWithKey entries1 k = []
    · simp [h1, hnil.mp h1]
    · simp [h1, mt hnil.mpr h1, hp]

theorem C16_key_paths_independent_of_order_witness :
    (keyOf entrySW1 ∈ keyPaths (groupEntries [entrySW1, entryZZ99, entrySW1b]) ↔
        keyOf entrySW1 ∈ keyPaths (groupEntries [entrySW1b, entryZZ99, entrySW1])) ∧
      (leafAt (groupEntries [entrySW1, entryZZ99, entrySW1b]) (keyOf entrySW1)).isSome =
        (leafAt (groupEntries [entrySW1b, entryZZ99, entrySW1]) (keyOf entrySW1)).isSome ∧
      ((leafAt (groupEntries [entrySW1, entryZZ99, entrySW1b]) (keyOf entrySW1)).getD []).Perm
        ((leafAt (groupEntries [entrySW1b, entryZZ99, entrySW1]) (keyOf entrySW1)).getD []) :=
  C16_key_paths_independent_of_order [entrySW1, entryZZ99, entrySW1b]
    [entrySW1b, entryZZ99, entrySW1] (by decide) (keyOf entrySW1)

end HomeUK
